import Mathlib

/-!
# Verification of the claude-squad instance supervision core

A shallow embedding, in Lean 4, of the instance lifecycle and watchdog core of
the claude-squad repository (package `session`, file `instance.go`, plus the
fleet cap in `app/controller.go` and the configuration defaults in the config
source).  Go strings are modelled as Lean `String`s (ASCII case folding stands
in for `strings.ToLower`, which agrees with Go on ASCII input); Go `time.Time`
and `time.Duration` values are modelled as `Nat` milliseconds; external effects
(tmux, git, the filesystem and the clock) are passed in as explicit arguments
and recorded in action traces.  Fallible Go functions return `Except`.
-/

/-! ## Go string primitives used by instance.go -/

/-- ASCII lowering of one character, the ASCII fragment of Go `strings.ToLower`. -/
def lowerChar (c : Char) : Char :=
  if 'A' ≤ c ∧ c ≤ 'Z' then Char.ofNat (c.toNat + 32) else c

/-- `strings.ToLower` (ASCII fragment). -/
def goToLower (s : String) : String :=
  String.mk (s.toList.map lowerChar)

/-- Does `hay` start with `needle`? -/
def startsWithCL : List Char → List Char → Bool
  | [], _ => true
  | _ :: _, [] => false
  | n :: ns, h :: hs => n == h && startsWithCL ns hs

/-- Does `needle` occur as a contiguous sublist of `hay`?  (Go `strings.Contains`.) -/
def containsCL (needle : List Char) : List Char → Bool
  | [] => startsWithCL needle []
  | c :: cs => startsWithCL needle (c :: cs) || containsCL needle cs

/-- Go `strings.Contains`. -/
def goContains (s sub : String) : Bool :=
  containsCL sub.toList s.toList

/-- Go `strings.HasSuffix`. -/
def goHasSuffix (s suf : String) : Bool :=
  startsWithCL suf.toList.reverse s.toList.reverse

/-- Go `strings.TrimSuffix`: drop `suf` from the end of `s` when present. -/
def goTrimSuffix (s suf : String) : String :=
  if goHasSuffix s suf then String.mk (s.toList.take (s.toList.length - suf.toList.length))
  else s

/-- The white-space class of Go `unicode.IsSpace`, restricted to Latin-1. -/
def isGoSpace (c : Char) : Bool :=
  c.toNat == 9 || c.toNat == 10 || c.toNat == 11 || c.toNat == 12 ||
  c.toNat == 13 || c.toNat == 32 || c.toNat == 133 || c.toNat == 160

/-- Go `strings.TrimSpace` on the character list. -/
def trimSpaceCL (l : List Char) : List Char :=
  ((l.dropWhile isGoSpace).reverse.dropWhile isGoSpace).reverse

/-- Go `strings.TrimSpace`. -/
def goTrimSpace (s : String) : String :=
  String.mk (trimSpaceCL s.toList)

/-- A single quote character, kept out of string literals. -/
def sqc : String := String.mk [Char.ofNat 39]

/-! ## SHA-256 (`crypto/sha256`) over `Nat` words reduced mod `2 ^ 32`

`hashContent` in instance.go hashes the UTF-8 bytes of the pane content with
SHA-256 and prints the digest as lowercase hex (`fmt.Sprintf` with the x verb).
-/

/-- UTF-8 encoding of one scalar value, as byte values. -/
def utf8EncodeChar (c : Char) : List Nat :=
  let n := c.toNat
  if n < 128 then [n]
  else if n < 2048 then [192 + n / 64, 128 + n % 64]
  else if n < 65536 then [224 + n / 4096, 128 + n / 64 % 64, 128 + n % 64]
  else [240 + n / 262144, 128 + n / 4096 % 64, 128 + n / 64 % 64, 128 + n % 64]

/-- UTF-8 bytes of a string (Go `[]byte(s)`). -/
def utf8Bytes (s : String) : List Nat :=
  s.toList.flatMap utf8EncodeChar

/-- 32-bit truncation. -/
def w32 (n : Nat) : Nat := n % 4294967296

/-- 32-bit right rotation. -/
def rotr32 (k x : Nat) : Nat :=
  w32 (x / 2 ^ k + x % 2 ^ k * 2 ^ (32 - k))

/-- The SHA-256 round constants (decimal). -/
def sha256K : List Nat :=
  [1116352408, 1899447441, 3049323471, 3921009573, 961987163,
   1508970993, 2453635748, 2870763221, 3624381080, 310598401,
   607225278, 1426881987, 1925078388, 2162078206, 2614888103,
   3248222580, 3835390401, 4022224774, 264347078, 604807628,
   770255983, 1249150122, 1555081692, 1996064986, 2554220882,
   2821834349, 2952996808, 3210313671, 3336571891, 3584528711,
   113926993, 338241895, 666307205, 773529912, 1294757372,
   1396182291, 1695183700, 1986661051, 2177026350, 2456956037,
   2730485921, 2820302411, 3259730800, 3345764771, 3516065817,
   3600352804, 4094571909, 275423344, 430227734, 506948616,
   659060556, 883997877, 958139571, 1322822218, 1537002063,
   1747873779, 1955562222, 2024104815, 2227730452, 2361852424,
   2428436474, 2756734187, 3204031479, 3329325298]

/-- The SHA-256 initial hash state (decimal). -/
def sha256H0 : List Nat :=
  [1779033703, 3144134277, 1013904242, 2773480762,
   1359893119, 2600822924, 528734635, 1541459225]

/-- Pad a byte message per SHA-256 (append 0x80, zeros, and the 64-bit bit length). -/
def sha256Pad (msg : List Nat) : List Nat :=
  let ml := msg.length * 8
  let zeros := (64 - (msg.length + 9) % 64) % 64
  msg ++ [128] ++ List.replicate zeros 0 ++
    [w32 (ml / 2 ^ 56) % 256, ml / 2 ^ 48 % 256, ml / 2 ^ 40 % 256, ml / 2 ^ 32 % 256,
     ml / 2 ^ 24 % 256, ml / 2 ^ 16 % 256, ml / 2 ^ 8 % 256, ml % 256]

/-- Split a list into chunks of `n` elements.  The `fuel` argument only
drives structural recursion; `fuel = l.length` always suffices when `n > 0`. -/
def chunksOfAux (n : Nat) : Nat → List α → List (List α)
  | _, [] => []
  | 0, l => [l]
  | fuel + 1, c :: cs => (c :: cs).take n :: chunksOfAux n fuel ((c :: cs).drop n)

/-- Split a list into chunks of `n` elements (`n > 0`). -/
def chunksOf (n : Nat) (l : List α) : List (List α) :=
  chunksOfAux n l.length l

/-- Big-endian 32-bit words from bytes. -/
def bytesToWords (bs : List Nat) : List Nat :=
  (chunksOf 4 bs).map fun c =>
    c.getD 0 0 * 2 ^ 24 + c.getD 1 0 * 2 ^ 16 + c.getD 2 0 * 2 ^ 8 + c.getD 3 0

/-- One step of the SHA-256 message-schedule extension. -/
def schedStep (w : Array Nat) : Array Nat :=
  let s0 :=
    Nat.xor (Nat.xor (rotr32 7 (w.getD (w.size - 15) 0)) (rotr32 18 (w.getD (w.size - 15) 0)))
      (w.getD (w.size - 15) 0 / 2 ^ 3)
  let s1 :=
    Nat.xor (Nat.xor (rotr32 17 (w.getD (w.size - 2) 0)) (rotr32 19 (w.getD (w.size - 2) 0)))
      (w.getD (w.size - 2) 0 / 2 ^ 10)
  w.push (w32 (w.getD (w.size - 16) 0 + s0 + w.getD (w.size - 7) 0 + s1))

/-- The 64-word message schedule of one block. -/
def sha256Schedule (block : List Nat) : Array Nat :=
  (List.range 48).foldl (fun w _ => schedStep w) (List.toArray (bytesToWords block))

/-- One round of the SHA-256 compression function. -/
def sha256Round (w : Array Nat) (st : List Nat) (i : Nat) : List Nat :=
  let a := st.getD 0 0
  let b := st.getD 1 0
  let c := st.getD 2 0
  let d := st.getD 3 0
  let e := st.getD 4 0
  let f := st.getD 5 0
  let g := st.getD 6 0
  let h := st.getD 7 0
  let s1 := Nat.xor (Nat.xor (rotr32 6 e) (rotr32 11 e)) (rotr32 25 e)
  let ch := Nat.xor (Nat.land e f) (Nat.land (4294967295 - e) g)
  let t1 := w32 (h + s1 + ch + sha256K.getD i 0 + w.getD i 0)
  let s0 := Nat.xor (Nat.xor (rotr32 2 a) (rotr32 13 a)) (rotr32 22 a)
  let mj := Nat.xor (Nat.xor (Nat.land a b) (Nat.land a c)) (Nat.land b c)
  let t2 := w32 (s0 + mj)
  [w32 (t1 + t2), a, b, c, w32 (d + t1), e, f, g]

/-- Process one 64-byte block into the running hash state. -/
def sha256Block (hstate : List Nat) (block : List Nat) : List Nat :=
  let w := sha256Schedule block
  let fin := (List.range 64).foldl (sha256Round w) hstate
  (List.zip hstate fin).map fun p => w32 (p.1 + p.2)

/-- One hex digit (lowercase). -/
def hexDigit (d : Nat) : Char :=
  if d < 10 then Char.ofNat (48 + d) else Char.ofNat (87 + d)

/-- A byte as two lowercase hex digits. -/
def hexByte (b : Nat) : List Char :=
  [hexDigit (b / 16 % 16), hexDigit (b % 16)]

/-- SHA-256 digest of a byte message as a lowercase hex string. -/
def sha256Hex (msg : List Nat) : String :=
  let final := (chunksOf 64 (sha256Pad msg)).foldl sha256Block sha256H0
  String.mk ((final.flatMap fun word =>
    [word / 2 ^ 24 % 256, word / 2 ^ 16 % 256, word / 2 ^ 8 % 256, word % 256]).flatMap hexByte)

/-- `hashContent` from instance.go: SHA-256 of the content bytes, lowercase hex. -/
def hashContent (content : String) : String :=
  sha256Hex (utf8Bytes content)

set_option maxRecDepth 4096

/-! ## `normalizeContent`: the three regexp replacement passes

instance.go normalizes pane content by deleting, in order, every match of
`\x1b\[[0-9;]*[a-zA-Z]` (ANSI escapes), of `\d{1,2}:\d{2}:\d{2}|\d{4}-\d{2}-\d{2}`
(times and dates), and of `\d+%` (percentages), and finally trimming space.
Each pass is `regexp.ReplaceAllString(s, "")`, which deletes successive
leftmost matches; Go's regexp uses leftmost-first (Perl) alternation order and
greedy repetition, which the hand-rolled matchers below reproduce.  Matchers
return the unconsumed remainder on success. -/

/-- Is `c` an ASCII digit (regexp `\d`)? -/
def isDigitCh (c : Char) : Bool := 48 ≤ c.toNat && c.toNat ≤ 57

/-- Is `c` in the ANSI body class `[0-9;]`? -/
def isDigitSemi (c : Char) : Bool := isDigitCh c || c.toNat == 59

/-- Is `c` an ASCII letter (regexp `[a-zA-Z]`)? -/
def isAsciiLetterCh (c : Char) : Bool :=
  (65 ≤ c.toNat && c.toNat ≤ 90) || (97 ≤ c.toNat && c.toNat ≤ 122)

/-- Consume one character satisfying `p`. -/
def expectP (p : Char → Bool) : List Char → Option (List Char)
  | [] => none
  | c :: cs => if p c then some cs else none

/-- Consume one digit. -/
def expectDigit : List Char → Option (List Char) := expectP isDigitCh

/-- Consume one fixed character. -/
def expectCh (x : Char) : List Char → Option (List Char) := expectP (fun c => c == x)

/-- Sequencing of consuming matchers. -/
def pseq (f g : List Char → Option (List Char)) : List Char → Option (List Char) :=
  fun l => (f l).bind g

/-- Match `\x1b\[[0-9;]*[a-zA-Z]` at the head; the `[0-9;]*` run is greedy and
is terminated by the letter, so the match length is determined. -/
def matchAnsi (l : List Char) : Option (List Char) :=
  (pseq (expectCh (Char.ofNat 27)) (expectCh '[') l).bind fun r =>
    expectP isAsciiLetterCh (r.dropWhile isDigitSemi)

/-- Match `\d{2}:\d{2}:\d{2}` at the head (the 2-digit-hour reading, tried first
because `\d{1,2}` is greedy). -/
def matchTime2 : List Char → Option (List Char) :=
  pseq expectDigit (pseq expectDigit (pseq (expectCh ':')
    (pseq expectDigit (pseq expectDigit (pseq (expectCh ':')
      (pseq expectDigit expectDigit))))))

/-- Match `\d{1}:\d{2}:\d{2}` at the head (the 1-digit-hour reading). -/
def matchTime1 : List Char → Option (List Char) :=
  pseq expectDigit (pseq (expectCh ':')
    (pseq expectDigit (pseq expectDigit (pseq (expectCh ':')
      (pseq expectDigit expectDigit)))))

/-- Match `\d{4}-\d{2}-\d{2}` at the head. -/
def matchDate : List Char → Option (List Char) :=
  pseq expectDigit (pseq expectDigit (pseq expectDigit (pseq expectDigit
    (pseq (expectCh '-') (pseq expectDigit (pseq expectDigit
      (pseq (expectCh '-') (pseq expectDigit expectDigit))))))))

/-- Match `\d{1,2}:\d{2}:\d{2}|\d{4}-\d{2}-\d{2}` at the head, in Go's
leftmost-first preference order. -/
def matchTimeDate (l : List Char) : Option (List Char) :=
  (matchTime2 l).orElse fun _ => (matchTime1 l).orElse fun _ => matchDate l

/-- Match `\d+%` at the head: a maximal digit run followed by a percent sign. -/
def matchPercent (l : List Char) : Option (List Char) :=
  if l.takeWhile isDigitCh = [] then none
  else expectCh '%' (l.dropWhile isDigitCh)

/-- Delete every leftmost match of `f` while scanning left to right, as
`regexp.ReplaceAllString(s, "")` does.  The `fuel` argument only drives
structural recursion; `fuel = l.length` suffices whenever `f` consumes at
least one character, which all three matchers above do. -/
def scanStripAux (f : List Char → Option (List Char)) : Nat → List Char → List Char
  | _, [] => []
  | 0, l => l
  | fuel + 1, c :: cs =>
    match f (c :: cs) with
    | some rest => scanStripAux f fuel rest
    | none => c :: scanStripAux f fuel cs

/-- Delete every leftmost match of `f` from `l`. -/
def scanStrip (f : List Char → Option (List Char)) (l : List Char) : List Char :=
  scanStripAux f l.length l

/-- `normalizeContent` from instance.go: strip ANSI escapes, then times and
dates, then percentages, then trim surrounding space. -/
def normalizeContent (content : String) : String :=
  let noAnsi := scanStrip matchAnsi content.toList
  let noTime := scanStrip matchTimeDate noAnsi
  let noPercent := scanStrip matchPercent noTime
  String.mk (trimSpaceCL noPercent)

/-! ## The Instance data model (instance.go)

Time stamps and durations are `Nat` milliseconds (`0` is Go's zero `time.Time`).
The live tmux and git handles are modelled by the constructor data the Go code
stores in them; the lock, the cached duration string and log statements have no
observable effect on the fields the claims mention and are not modelled. -/

/-- Instance status (instance.go `Status`). -/
inductive Status
  | Running
  | Ready
  | Loading
  | Paused
deriving DecidableEq, Repr

/-- The data `tmux.NewTmuxSession(name, program)` is given. -/
structure TmuxSessionM where
  name : String
  program : String
deriving DecidableEq, Repr

/-- The data a `git.GitWorktree` carries (as read back by its getters). -/
structure GitWorktreeM where
  repoPath : String
  worktreePath : String
  sessionName : String
  branchName : String
  baseCommitSHA : String
deriving DecidableEq, Repr

/-- `git.DiffStats` (added lines, removed lines, unified patch). -/
structure DiffStatsM where
  added : Int
  removed : Int
  content : String
deriving DecidableEq, Repr

/-- The `Instance` struct of instance.go. -/
structure Instance where
  title : String
  path : String
  branch : String
  status : Status
  program : String
  height : Int
  width : Int
  createdAt : Nat
  updatedAt : Nat
  autoYes : Bool
  prompt : String
  diffStats : Option DiffStatsM
  lastActivityTime : Nat
  stallCount : Nat
  watchdogEnabled : Bool
  continuousMode : Bool
  continuousModeStartTime : Nat
  continuousModeDuration : Nat
  lastContentHash : String
  restartAttempts : Nat
  lastRestartTime : Nat
  started : Bool
  tmuxSession : Option TmuxSessionM
  gitWorktree : Option GitWorktreeM
deriving DecidableEq, Repr

/-- The stall (prompt) pattern list of `DetectStall`. -/
def stallPatterns : List String :=
  ["I need confirmation to proceed",
   "Should I continue?",
   "Do you want me to continue?",
   "Would you like me to proceed?",
   "Press any key to continue",
   "Continue? (y/n)",
   "Proceed? (y/n)",
   "[y/n]",
   "(y/n)",
   "Type " ++ sqc ++ "continue" ++ sqc ++ " to proceed",
   "waiting for confirmation",
   "Claude Code is waiting",
   "Do you want to proceed?",
   "1. Yes",
   "> 1. Yes"]

/-- The completion pattern list of `DetectStall`. -/
def completionPatterns : List String :=
  ["What" ++ sqc ++ "s Working Now:",
   "The medical dictation app now has all essential features implemented",
   "all essential features implemented and working",
   "auto-accept edits on",
   "Context left until auto-compact:",
   "All UI elements functional and responsive",
   "Settings management implemented",
   "workflow complete"]

/-- `hasStallPattern` as `DetectStall` computes it: the explicit pattern list
(case-insensitively), then the structural prompt heuristics, then the raw-text
end-of-buffer prompt checks. -/
def hasStallPatternIn (content : String) : Bool :=
  let contentLower := goToLower content
  stallPatterns.any (fun p => goContains contentLower (goToLower p)) ||
  (goContains contentLower "do you want to" && goContains contentLower "?") ||
  (goContains contentLower "1." && goContains contentLower "yes" &&
   goContains contentLower "2." && goContains contentLower "no") ||
  goContains contentLower "(y/n)" || goContains contentLower "(yes/no)" ||
  goContains contentLower "[y/n]" || goContains contentLower "(esc)" ||
  goContains content "\n> " || goHasSuffix (goTrimSpace content) ">"

/-- `hasCompletionPattern` as `DetectStall` computes it. -/
def hasCompletionPatternIn (content : String) : Bool :=
  let contentLower := goToLower content
  completionPatterns.any fun p => goContains contentLower (goToLower p)

/-- `DetectStall(stallTimeoutSeconds, continuousModeTimeoutSeconds)` from
instance.go.  `capture` is the outcome of `tmuxSession.CapturePaneContent()`
and `now` the tick's `time.Now()`; the pair returned is the Go return value
together with the updated instance. -/
def DetectStall (i : Instance) (capture : Except String String) (now : Nat)
    (stallTimeoutSeconds continuousModeTimeoutSeconds : Nat) : Bool × Instance :=
  if !i.started || i.status == Status.Paused || !i.watchdogEnabled then (false, i)
  else match capture with
  | .error _ => (false, i)
  | .ok content =>
    let hasStallPattern := hasStallPatternIn content
    let hasCompletionPattern := hasCompletionPatternIn content
    if i.continuousMode && (hasCompletionPattern || hasStallPattern) then
      let timeSinceActivity := now - i.lastActivityTime
      let stabilityThreshold := 2000
      let normalizedHash := hashContent (normalizeContent content)
      if i.lastContentHash == normalizedHash && timeSinceActivity > stabilityThreshold then
        (true, i)
      else if i.lastContentHash != normalizedHash then
        (false, { i with lastContentHash := normalizedHash, lastActivityTime := now })
      else
        (false, i)
    else
      let currentHash := hashContent content
      let contentUnchanged := i.lastContentHash == currentHash
      let i1 := { i with lastContentHash := currentHash }
      if !contentUnchanged then (false, { i1 with lastActivityTime := now })
      else
        let timeSinceActivity := now - i1.lastActivityTime
        let timeoutSeconds :=
          if i1.continuousMode then continuousModeTimeoutSeconds else stallTimeoutSeconds
        let stallTimeout := timeoutSeconds * 1000
        if hasStallPattern || timeSinceActivity > stallTimeout then (true, i1) else (false, i1)

/-- `GetContinuousModeTimeRemaining` from instance.go (`0` when the mode is off
or indefinite; Go's negative-remainder clamp is the `Nat` truncation here). -/
def GetContinuousModeTimeRemaining (i : Instance) (now : Nat) : Nat :=
  if !i.continuousMode || i.continuousModeDuration == 0 then 0
  else i.continuousModeDuration - (now - i.continuousModeStartTime)

/-- The `/continuous` message `InjectContinue` synthesizes in continuous mode,
for a given remaining time in milliseconds. -/
def continuousModeMessage (remaining : Nat) : String :=
  if remaining > 0 then
    let hours := remaining / 3600000
    let minutes := remaining / 60000 % 60
    let seconds := remaining / 1000 % 60
    let tail := ". Keep working on any remaining tasks or improvements."
    let head := "/continuous You" ++ sqc ++ "re in continuous mode. Time remaining: "
    if hours > 0 then
      head ++ toString hours ++ "h " ++ toString minutes ++ "m " ++ toString seconds ++ "s" ++ tail
    else if minutes > 0 then
      head ++ toString minutes ++ "m " ++ toString seconds ++ "s" ++ tail
    else
      head ++ toString seconds ++ "s" ++ tail
  else
    "/continuous You" ++ sqc ++ "re in continuous mode (indefinite duration). " ++
    "Keep working on any remaining tasks or improvements. " ++
    "The system will auto-continue when you complete each task."

/-- The default candidate list `InjectContinue` falls back to. -/
def defaultContinueCommands : List String := ["1", "continue", "yes", "y", "proceed", "\n"]

/-- The content-adaptive candidate selection of `InjectContinue`. -/
def adaptContinueCommands (i : Instance) (cmds : List String)
    (capture : Except String String) (now : Nat) : List String :=
  match capture with
  | .error _ => cmds
  | .ok content =>
    let contentLower := goToLower content
    let c1 :=
      if i.continuousMode &&
          (goContains contentLower ("what" ++ sqc ++ "s working now:") ||
           goContains contentLower "all essential features implemented" ||
           goContains contentLower "auto-accept edits on") then
        [continuousModeMessage (GetContinuousModeTimeRemaining i now), "continue", "\n"]
      else cmds
    let c2 :=
      if goContains contentLower ("don" ++ sqc ++ "t ask again") &&
          goContains contentLower "2." then
        ["2", "yes", "1", "y", "continue"]
      else c1
    if goContains contentLower "do you want to create" then ["1", "yes", "y"] else c2

/-- The send loop of `InjectContinue`: try each candidate with `SendPrompt`
until one send succeeds, then bump `StallCount` and refresh the activity time. -/
def injectLoop (i : Instance) (now : Nat) (sendOk : String → Bool) :
    List String → Except String Unit × Instance × List String
  | [] =>
    (.error ("failed to send any continue commands to instance " ++
      sqc ++ i.title ++ sqc), i, [])
  | cmd :: rest =>
    if sendOk cmd then
      (.ok (), { i with stallCount := i.stallCount + 1, lastActivityTime := now }, [cmd])
    else
      let (res, i2, sent) := injectLoop i now sendOk rest
      (res, i2, cmd :: sent)

/-- `InjectContinue(continueCommands)` from instance.go.  `capture` is the
candidate-selection capture, `sendOk` tells which `SendPrompt` calls succeed,
and the returned list is the trace of attempted sends. -/
def InjectContinue (i : Instance) (continueCommands : List String)
    (capture : Except String String) (now : Nat) (sendOk : String → Bool) :
    Except String Unit × Instance × List String :=
  if !i.started || i.status == Status.Paused then
    (.error "cannot inject continue: instance not running", i, [])
  else
    let cmds0 := if continueCommands.isEmpty then defaultContinueCommands else continueCommands
    let cmds := adaptContinueCommands i cmds0 capture now
    injectLoop i now sendOk cmds

/-- `InitializeWatchdog(enabled)` from instance.go. -/
def InitializeWatchdog (i : Instance) (enabled : Bool) (now : Nat) : Instance :=
  { i with watchdogEnabled := enabled, lastActivityTime := now,
           stallCount := 0, lastContentHash := "" }

/-- The watchdog configuration block of the application `Config`. -/
structure Config where
  defaultProgram : String
  autoYes : Bool
  daemonPollInterval : Nat
  branchPrefix : String
  watchdogEnabled : Bool
  stallTimeoutSeconds : Nat
  maxContinueAttempts : Nat
  continueCommands : List String
deriving DecidableEq, Repr

/-- `DefaultConfig()` from the config source; `username` is `user.Current()`. -/
def DefaultConfig (username : Option String) : Config :=
  { defaultProgram := "claude"
    autoYes := false
    daemonPollInterval := 1000
    branchPrefix := match username with
      | some u => if u == "" then "session/" else goToLower u ++ "/"
      | none => "session/"
    watchdogEnabled := true
    stallTimeoutSeconds := 300
    maxContinueAttempts := 3
    continueCommands := ["continue", "yes", "y", "proceed", "\n"] }

/-- Modelled from the spec: the Supervisor's per-tick watchdog step for one
started, non-paused instance (§4.4: run `detectStall`, and on a stall run
`injectContinue` with the configured candidate list; injection failures are
logged and retried next tick).  The Supervisor loop itself is not under `src/`;
`DetectStall` and `InjectContinue` are the instance.go functions above. -/
def watchdogTick (i : Instance) (content : String) (now : Nat) (cfg : Config)
    (continuousTimeoutSeconds : Nat) (sendOk : String → Bool) : Instance :=
  let (stalled, i1) := DetectStall i (.ok content) now cfg.stallTimeoutSeconds
    continuousTimeoutSeconds
  if stalled then (InjectContinue i1 cfg.continueCommands (.ok content) now sendOk).2.1
  else i1

/-- Iterate `watchdogTick` over a list of tick times with fixed pane content. -/
def watchdogTicks (i : Instance) (content : String) (times : List Nat) (cfg : Config)
    (continuousTimeoutSeconds : Nat) (sendOk : String → Bool) : Instance :=
  times.foldl (fun st t => watchdogTick st content t cfg continuousTimeoutSeconds sendOk) i

/-! ## Session discovery, restart, pause, start, serialization -/

/-- Pane / git side effects, recorded in traces so theorems can state which
external operations an instance method performed, and in which order. -/
inductive PaneAct
  | sendKeys (s : String)
  | tapEnter
  | closePane
  | startPane (program workdir : String)
  | commitPush (msg : String)
  | removeWorktree
  | pruneWorktree
deriving DecidableEq, Repr

/-- One result of `os.ReadDir`: name, kind, and `Info()` outcome with mtime
(milliseconds; `0` is Go's zero `time.Time`). -/
structure DirEntry where
  name : String
  isDir : Bool
  infoOk : Bool
  modTime : Nat
deriving DecidableEq, Repr

/-- The directory key of `findClaudeSessionFromFiles`: the working-tree path
with the leading separator trimmed (`strings.TrimPrefix(dir, "/")`) and every
remaining separator replaced by a dash. -/
def dirKeyOf (worktreePath : String) : String :=
  let l := match worktreePath.toList with
    | '/' :: rest => rest
    | l => l
  String.mk (l.map fun c => if c == '/' then '-' else c)

/-- The loop body of `findClaudeSessionFromFiles`: keep the entry when it is a
`.jsonl` file whose `Info()` succeeded and whose mtime is strictly after the
best seen so far (`time.Time.After`). -/
def sessFoldStep (acc : String × Nat) (entry : DirEntry) : String × Nat :=
  if !entry.isDir && goHasSuffix entry.name ".jsonl" && entry.infoOk &&
      entry.modTime > acc.2 then
    (goTrimSuffix entry.name ".jsonl", entry.modTime)
  else acc

/-- `findClaudeSessionFromFiles` from instance.go.  `homeDir` is the outcome of
`os.UserHomeDir()` and `readDir` the filesystem's answer to `os.ReadDir`. -/
def findClaudeSessionFromFiles (homeDir : Except String String)
    (readDir : String → Except String (List DirEntry)) (worktreePath : String) :
    Except String String :=
  match homeDir with
  | .error e => .error ("failed to get home directory: " ++ e)
  | .ok home =>
    let projectsDir := home ++ "/.claude/projects"
    let sessionDir := projectsDir ++ "/" ++ dirKeyOf worktreePath
    match readDir sessionDir with
    | .error e => .error ("failed to read session directory " ++ sessionDir ++ ": " ++ e)
    | .ok entries =>
      let best := entries.foldl sessFoldStep ("", 0)
      if best.1 == "" then .error ("no Claude session files found in " ++ sessionDir)
      else .ok best.1

/-- `findClaudeSessionNumber` from instance.go: file-based discovery from the
instance's worktree path (a missing worktree handle would be a nil dereference
in Go; it is an error here and unreachable for started instances). -/
def findClaudeSessionNumber (i : Instance) (homeDir : Except String String)
    (readDir : String → Except String (List DirEntry)) : Except String String :=
  match i.gitWorktree with
  | some w => findClaudeSessionFromFiles homeDir readDir w.worktreePath
  | none => .error "no git worktree"

/-- `strings.Split(program, " ")[0]`. -/
def baseProgramOf (program : String) : String :=
  String.mk (program.toList.takeWhile fun c => c != ' ')

/-- External outcomes a restart consumes. -/
structure RestartEnv where
  homeDir : Except String String
  readDir : String → Except String (List DirEntry)
  startOk : Bool
  probeContents : List (Except String String)
  sendOk : String → Bool
  endTime : Nat
deriving Inhabited

/-- The readiness-probe loop of `restartClaudeWithResume`: up to five captures
with exponential backoff; on the first capture that mentions the agent, a
prompt, or the word continue, send `continue` (via `SendPrompt`) and stop. -/
def probeReady : List (Except String String) → List PaneAct
  | [] => []
  | .error _ :: rest => probeReady rest
  | .ok content :: rest =>
    let contentLower := goToLower content
    if goContains contentLower "claude" || goContains contentLower ">" ||
        goContains contentLower "continue" then
      [PaneAct.sendKeys "continue", PaneAct.tapEnter]
    else probeReady rest

/-- `restartClaudeWithResume` from instance.go: save the continuous-mode
fields, discover the session id, gracefully close the old pane, start a new
pane running `<base> -r <id>`, probe for readiness, reset activity tracking,
and restore the continuous-mode fields. -/
def restartClaudeWithResume (i : Instance) (env : RestartEnv) :
    Except String Instance × List PaneAct :=
  let wasInContinuousMode := i.continuousMode
  let savedStart := i.continuousModeStartTime
  let savedDur := i.continuousModeDuration
  match findClaudeSessionNumber i env.homeDir env.readDir with
  | .error e => (.error ("failed to find Claude session number: " ++ e), [])
  | .ok sessionNumber =>
    let closeActs := match i.tmuxSession with
      | some _ => [PaneAct.sendKeys "exit", PaneAct.closePane]
      | none => []
    let resumeProgram := baseProgramOf i.program ++ " -r " ++ sessionNumber
    let workdir := (i.gitWorktree.map fun w => w.worktreePath).getD ""
    let i1 := { i with tmuxSession := some ⟨i.title, resumeProgram⟩ }
    let startAct := [PaneAct.startPane resumeProgram workdir]
    if !env.startOk then
      (.error "failed to restart Claude Code with --resume", closeActs ++ startAct)
    else
      let probeActs := probeReady (env.probeContents.take 5)
      let i2 := { i1 with lastActivityTime := env.endTime, lastContentHash := "" }
      let i3 :=
        if wasInContinuousMode then
          { i2 with continuousMode := true, continuousModeStartTime := savedStart,
                    continuousModeDuration := savedDur }
        else i2
      (.ok i3, closeActs ++ startAct ++ probeActs)

/-- The errors `ManualRestart` can return.  `coolingDown` carries the remaining
wait Go interpolates into "please wait %v before restarting again". -/
inductive RestartError
  | notStarted
  | isPaused
  | unsupportedProgram
  | coolingDown (remainingMs : Nat)
  | restartFailed (msg : String)
deriving DecidableEq, Repr

/-- `ManualRestart` from instance.go: validate, enforce the 10-second cooldown
keyed on `LastRestartTime`, record the attempt, and delegate to
`restartClaudeWithResume`.  Returns the updated instance and the pane trace. -/
def ManualRestart (i : Instance) (now : Nat) (env : RestartEnv) :
    Except RestartError Unit × Instance × List PaneAct :=
  if !i.started then (.error RestartError.notStarted, i, [])
  else if i.status == Status.Paused then (.error RestartError.isPaused, i, [])
  else if !(goContains (goToLower i.program) "claude") then
    (.error RestartError.unsupportedProgram, i, [])
  else if now - i.lastRestartTime < 10000 then
    (.error (RestartError.coolingDown (10000 - (now - i.lastRestartTime))), i, [])
  else
    let i1 := { i with lastRestartTime := now, restartAttempts := i.restartAttempts + 1 }
    match restartClaudeWithResume i1 env with
    | (.error e, acts) => (.error (RestartError.restartFailed e), i1, acts)
    | (.ok i2, acts) => (.ok (), i2, acts)

/-- External outcomes `Pause` consumes. -/
structure PauseEnv where
  isDirty : Except String Bool
  nowRFC822 : String
  push : Except String Unit
  closeTmux : Except String Unit
  worktreeOnDisk : Bool
  remove : Except String Unit
  prune : Except String Unit
deriving Inhabited

/-- The timestamped commit message `Pause` uses for a dirty tree. -/
def pauseCommitMsg (title nowRFC822 : String) : String :=
  "[claudesquad] update from " ++ sqc ++ title ++ sqc ++ " on " ++ nowRFC822 ++ " (paused)"

/-- `combineErrors` from instance.go. -/
def combineErrors (errs : List String) : Except String Unit :=
  match errs with
  | [] => .ok ()
  | [e] => .error e
  | _ => .error (errs.foldl (fun acc e => acc ++ "\n  - " ++ e)
      "multiple cleanup errors occurred:")

/-- The tail of `Pause` after the dirty-commit step: close the pane, and if the
working tree is on disk remove then prune it; set `Paused` only when the
accumulated error list is empty. -/
def pauseAfterCommit (i : Instance) (env : PauseEnv) (errs : List String)
    (acts : List PaneAct) : Except String Unit × Instance × List PaneAct :=
  match env.closeTmux with
  | .error e =>
    (combineErrors (errs ++ ["failed to close tmux session: " ++ e]), i,
     acts ++ [PaneAct.closePane])
  | .ok _ =>
    let acts1 := acts ++ [PaneAct.closePane]
    if env.worktreeOnDisk then
      match env.remove with
      | .error e =>
        (combineErrors (errs ++ ["failed to remove git worktree: " ++ e]), i,
         acts1 ++ [PaneAct.removeWorktree])
      | .ok _ =>
        let acts2 := acts1 ++ [PaneAct.removeWorktree]
        match env.prune with
        | .error e =>
          (combineErrors (errs ++ ["failed to prune git worktrees: " ++ e]), i,
           acts2 ++ [PaneAct.pruneWorktree])
        | .ok _ =>
          let acts3 := acts2 ++ [PaneAct.pruneWorktree]
          match combineErrors errs with
          | .error e => (.error e, i, acts3)
          | .ok _ => (.ok (), { i with status := Status.Paused }, acts3)
    else
      match combineErrors errs with
      | .error e => (.error e, i, acts1)
      | .ok _ => (.ok (), { i with status := Status.Paused }, acts1)

/-- `Pause` from instance.go: commit a dirty tree with a timestamped message
(returning early if the commit fails), then close the pane and remove the
working tree while preserving the branch. -/
def Pause (i : Instance) (env : PauseEnv) : Except String Unit × Instance × List PaneAct :=
  if !i.started then (.error "cannot pause instance that has not been started", i, [])
  else if i.status == Status.Paused then (.error "instance is already paused", i, [])
  else
    match env.isDirty with
    | .error e =>
      pauseAfterCommit i env ["failed to check if worktree is dirty: " ++ e] []
    | .ok dirty =>
      if dirty then
        let msg := pauseCommitMsg i.title env.nowRFC822
        match env.push with
        | .error e => (.error ("failed to commit changes: " ++ e), i, [PaneAct.commitPush msg])
        | .ok _ => pauseAfterCommit i env [] [PaneAct.commitPush msg]
      else pauseAfterCommit i env [] []

/-- External outcomes `Start` consumes. -/
structure StartEnv where
  newWorktree : Except String (GitWorktreeM × String)
  setup : Except String Unit
  restore : Except String Unit
  tmuxStart : Except String Unit
  cleanup : Except String Unit
  now : Nat
deriving Inhabited

/-- After the body of `Start` succeeds: `SetStatus(Running)` in the body, then
the deferred block marks the instance started and, when the watchdog flag is
set, reinitializes the watchdog state. -/
def finishStart (i : Instance) (now : Nat) : Instance :=
  let i1 := { i with status := Status.Running, started := true }
  if i1.watchdogEnabled then InitializeWatchdog i1 true now else i1

/-- `Start(firstTimeSetup)` from instance.go.  On the first start it creates
the git worktree and a fresh pane; otherwise it restores the existing pane.
The deferred cleanup calls `Kill`, which is a no-op for a not-yet-started
instance, so failures leave the fields unchanged. -/
def Start (i : Instance) (firstTimeSetup : Bool) (env : StartEnv) : Except String Instance :=
  if i.title == "" then .error "instance title cannot be empty"
  else
    let i0 := { i with tmuxSession := some ⟨i.title, i.program⟩ }
    if firstTimeSetup then
      match env.newWorktree with
      | .error e => .error ("failed to create git worktree: " ++ e)
      | .ok (wt, branchName) =>
        let i1 := { i0 with gitWorktree := some wt, branch := branchName }
        match env.setup with
        | .error e => .error ("failed to setup git worktree: " ++ e)
        | .ok _ =>
          match env.tmuxStart with
          | .error e =>
            match env.cleanup with
            | .ok _ => .error ("failed to start new session: " ++ e)
            | .error ce =>
              .error ("failed to start new session: " ++ e ++ " (cleanup error: " ++ ce ++ ")")
          | .ok _ => .ok (finishStart i1 env.now)
    else
      match env.restore with
      | .error e => .error ("failed to restore existing session: " ++ e)
      | .ok _ => .ok (finishStart i0 env.now)

/-- `GitWorktreeData`, the serialized worktree record (fields as written by
`ToInstanceData`; the Go zero value is all-empty strings). -/
structure GitWorktreeData where
  repoPath : String
  worktreePath : String
  sessionName : String
  branchName : String
  baseCommitSHA : String
deriving DecidableEq, Repr

/-- The zero `GitWorktreeData`. -/
def GitWorktreeData.zero : GitWorktreeData := ⟨"", "", "", "", ""⟩

/-- `DiffStatsData`, the serialized diff-stat cache. -/
structure DiffStatsData where
  added : Int
  removed : Int
  content : String
deriving DecidableEq, Repr

/-- The zero `DiffStatsData`. -/
def DiffStatsData.zero : DiffStatsData := ⟨0, 0, ""⟩

/-- `InstanceData`, the serializable form of an instance, with exactly the
fields `ToInstanceData` writes and `FromInstanceData` reads. -/
structure InstanceData where
  title : String
  path : String
  branch : String
  status : Status
  height : Int
  width : Int
  createdAt : Nat
  updatedAt : Nat
  program : String
  autoYes : Bool
  watchdogEnabled : Bool
  continuousMode : Bool
  continuousModeStartTime : Nat
  continuousModeDuration : Nat
  lastActivityTime : Nat
  stallCount : Nat
  restartAttempts : Nat
  lastRestartTime : Nat
  worktree : GitWorktreeData
  diffStats : DiffStatsData
deriving DecidableEq, Repr

/-- `ToInstanceData` from instance.go (`now` is the `time.Now()` it stores in
`UpdatedAt`). -/
def ToInstanceData (i : Instance) (now : Nat) : InstanceData :=
  { title := i.title
    path := i.path
    branch := i.branch
    status := i.status
    height := i.height
    width := i.width
    createdAt := i.createdAt
    updatedAt := now
    program := i.program
    autoYes := i.autoYes
    watchdogEnabled := i.watchdogEnabled
    continuousMode := i.continuousMode
    continuousModeStartTime := i.continuousModeStartTime
    continuousModeDuration := i.continuousModeDuration
    lastActivityTime := i.lastActivityTime
    stallCount := i.stallCount
    restartAttempts := i.restartAttempts
    lastRestartTime := i.lastRestartTime
    worktree := match i.gitWorktree with
      | some w => ⟨w.repoPath, w.worktreePath, i.title, w.branchName, w.baseCommitSHA⟩
      | none => GitWorktreeData.zero
    diffStats := match i.diffStats with
      | some d => ⟨d.added, d.removed, d.content⟩
      | none => DiffStatsData.zero }

/-- `FromInstanceData` from instance.go.  The struct literal omits `AutoYes`
and `Prompt`, so they take Go zero values; paused records are marked started
with a rebuilt tmux handle, all other records go through `Start(false)`. -/
def FromInstanceData (data : InstanceData) (env : StartEnv) : Except String Instance :=
  let inst : Instance :=
    { title := data.title
      path := data.path
      branch := data.branch
      status := data.status
      program := data.program
      height := data.height
      width := data.width
      createdAt := data.createdAt
      updatedAt := data.updatedAt
      autoYes := false
      prompt := ""
      diffStats := some ⟨data.diffStats.added, data.diffStats.removed, data.diffStats.content⟩
      lastActivityTime := data.lastActivityTime
      stallCount := data.stallCount
      watchdogEnabled := data.watchdogEnabled
      continuousMode := data.continuousMode
      continuousModeStartTime := data.continuousModeStartTime
      continuousModeDuration := data.continuousModeDuration
      lastContentHash := ""
      restartAttempts := data.restartAttempts
      lastRestartTime := data.lastRestartTime
      started := false
      tmuxSession := none
      gitWorktree := some ⟨data.worktree.repoPath, data.worktree.worktreePath,
        data.worktree.sessionName, data.worktree.branchName, data.worktree.baseCommitSHA⟩ }
  if inst.status == Status.Paused then
    .ok { inst with started := true, tmuxSession := some ⟨inst.title, inst.program⟩ }
  else
    Start inst false env

/-- `InstanceOptions` from instance.go. -/
structure InstanceOptions where
  title : String
  path : String
  program : String
  autoYes : Bool
deriving DecidableEq, Repr

/-- `NewInstance` from instance.go.  `absPath` is the outcome of
`filepath.Abs(opts.Path)` and `now` the construction time; note the struct
literal sets `AutoYes` to the literal `false`, not to `opts.AutoYes`. -/
def NewInstance (opts : InstanceOptions) (absPath : Except String String) (now : Nat) :
    Except String Instance :=
  match absPath with
  | .error e => .error ("failed to get absolute path: " ++ e)
  | .ok p =>
    .ok { title := opts.title
          status := Status.Ready
          path := p
          program := opts.program
          height := 0
          width := 0
          createdAt := now
          updatedAt := now
          autoYes := false
          branch := ""
          prompt := ""
          diffStats := none
          lastActivityTime := 0
          stallCount := 0
          watchdogEnabled := false
          continuousMode := false
          continuousModeStartTime := 0
          continuousModeDuration := 0
          lastContentHash := ""
          restartAttempts := 0
          lastRestartTime := 0
          started := false
          tmuxSession := none
          gitWorktree := none }

/-- `GlobalInstanceLimit` from app.go. -/
def GlobalInstanceLimit : Nat := 10

/-- `handleNewInstance` from app/controller.go: refuse when the fleet already
holds `GlobalInstanceLimit` instances, otherwise construct a blank instance
and append it to the list. -/
def handleNewInstance (fleet : List Instance) (program : String)
    (absPath : Except String String) (now : Nat) : Except String (List Instance) :=
  if fleet.length ≥ GlobalInstanceLimit then
    .error ("you can" ++ sqc ++ "t create more than " ++ toString GlobalInstanceLimit ++
      " instances")
  else
    match NewInstance ⟨"", ".", program, false⟩ absPath now with
    | .error e => .error e
    | .ok inst => .ok (fleet ++ [inst])

/-! ## Predicates and concrete states used by the verification -/

/-- A matcher that consumes at least one character whenever it succeeds. -/
def Consumes (f : List Char → Option (List Char)) : Prop :=
  ∀ l r, f l = some r → r.length < l.length

/-- `l` is one full ANSI escape: `ESC [ body letter` with `body ⊆ [0-9;]`. -/
def isAnsiSlot (l : List Char) : Bool :=
  match l with
  | c1 :: c2 :: rest =>
    c1 == Char.ofNat 27 && c2 == '[' &&
    (match rest.dropWhile isDigitSemi with
     | [w] => isAsciiLetterCh w
     | _ => false)
  | _ => false

/-- `l` is one full `\d{2}:\d{2}:\d{2}` time. -/
def isTime2Slot (l : List Char) : Bool :=
  match l with
  | [d1, d2, c1, d3, d4, c2, d5, d6] =>
    isDigitCh d1 && isDigitCh d2 && c1 == ':' && isDigitCh d3 && isDigitCh d4 &&
    c2 == ':' && isDigitCh d5 && isDigitCh d6
  | _ => false

/-- `l` is one full `\d{1}:\d{2}:\d{2}` time. -/
def isTime1Slot (l : List Char) : Bool :=
  match l with
  | [d1, c1, d2, d3, c2, d4, d5] =>
    isDigitCh d1 && c1 == ':' && isDigitCh d2 && isDigitCh d3 && c2 == ':' &&
    isDigitCh d4 && isDigitCh d5
  | _ => false

/-- `l` is one full `HH:MM:SS` time (one- or two-digit hour). -/
def isTimeSlot (l : List Char) : Bool := isTime2Slot l || isTime1Slot l

/-- `l` is one full `\d{4}-\d{2}-\d{2}` date. -/
def isDateSlot (l : List Char) : Bool :=
  match l with
  | [d1, d2, d3, d4, c1, d5, d6, c2, d7, d8] =>
    isDigitCh d1 && isDigitCh d2 && isDigitCh d3 && isDigitCh d4 && c1 == '-' &&
    isDigitCh d5 && isDigitCh d6 && c2 == '-' && isDigitCh d7 && isDigitCh d8
  | _ => false

/-- `l` is one full `\d+%` percentage. -/
def isPercentSlot (l : List Char) : Bool :=
  !(l.takeWhile isDigitCh).isEmpty && l.dropWhile isDigitCh == ['%']

/-- `l` is a full match of one of the four normalization patterns. -/
def isRemovableSlot (l : List Char) : Bool :=
  isAnsiSlot l || isTimeSlot l || isDateSlot l || isPercentSlot l

/-- A context character that can take part in no normalization match: neither a
digit nor the escape character. -/
def isPlainCtx (c : Char) : Bool := !isDigitCh c && c.toNat != 27

/-- Interleave literal context segments with (removable) slots:
`fillSlots [(a1, u1), …, (an, un)] z = a1 ++ u1 ++ … ++ an ++ un ++ z`. -/
def fillSlots : List (List Char × List Char) → List Char → List Char
  | [], z => z
  | (a, u) :: rest, z => a ++ (u ++ fillSlots rest z)

/-- The same interleaving with every slot deleted. -/
def plainSegs : List (List Char × List Char) → List Char → List Char
  | [], z => z
  | (a, _) :: rest, z => a ++ plainSegs rest z

/-- A started, running, watchdog-enabled claude instance used as a concrete
test state. -/
def baseInst : Instance :=
  { title := "feat"
    path := "/repo"
    branch := "user/feat"
    status := Status.Running
    program := "claude"
    height := 0
    width := 0
    createdAt := 0
    updatedAt := 0
    autoYes := false
    prompt := ""
    diffStats := none
    lastActivityTime := 0
    stallCount := 0
    watchdogEnabled := true
    continuousMode := false
    continuousModeStartTime := 0
    continuousModeDuration := 0
    lastContentHash := ""
    restartAttempts := 0
    lastRestartTime := 0
    started := true
    tmuxSession := some ⟨"feat", "claude"⟩
    gitWorktree := some ⟨"/repo", "/worktrees/feat", "feat", "user/feat", "abc123"⟩ }

/-- A pane capture showing a confirmation prompt. -/
def promptContent : String := "Continue? (y/n)"

/-- A restart environment in which every external step succeeds and the session
directory holds a single history file `a.jsonl`. -/
def okRestartEnv : RestartEnv :=
  { homeDir := .ok "/home/u"
    readDir := fun _ => .ok [⟨"a.jsonl", false, true, 10⟩]
    startOk := true
    probeContents := [.ok "claude ready"]
    sendOk := fun _ => true
    endTime := 99000
    }

/-- A restart environment whose external calls all fail (never reached by the
cooldown theorem). -/
def failRestartEnv : RestartEnv :=
  { homeDir := .error "no home"
    readDir := fun _ => .error "no dir"
    startOk := false
    probeContents := []
    sendOk := fun _ => false
    endTime := 0 }

/-- A continuous-mode variant of `baseInst` out of restart cooldown. -/
def contInst : Instance :=
  { baseInst with continuousMode := true, continuousModeStartTime := 77000,
                  continuousModeDuration := 1800000, restartAttempts := 1,
                  lastRestartTime := 0 }

/-- A pause environment: dirty tree, commit fails. -/
def dirtyPushFailEnv : PauseEnv :=
  { isDirty := .ok true
    nowRFC822 := "01 Jan 24 10:00 UTC"
    push := .error "index locked"
    closeTmux := .ok ()
    worktreeOnDisk := true
    remove := .ok ()
    prune := .ok () }

/-- A pause environment: dirty tree, everything succeeds. -/
def dirtyOkEnv : PauseEnv :=
  { dirtyPushFailEnv with push := .ok () }

/-- A start environment whose restore succeeds. -/
def okStartEnv : StartEnv :=
  { newWorktree := .ok (⟨"/repo", "/worktrees/feat", "feat", "user/feat", "abc123"⟩, "user/feat")
    setup := .ok ()
    restore := .ok ()
    tmuxStart := .ok ()
    cleanup := .ok ()
    now := 12345 }

/-- A paused instance with `AutoYes` enabled, exhibiting the snapshot
round-trip divergence. -/
def pausedAutoYesInst : Instance :=
  { baseInst with status := Status.Paused, autoYes := true, tmuxSession := none,
                  stallCount := 7, restartAttempts := 2, lastRestartTime := 50,
                  continuousMode := true, continuousModeStartTime := 60,
                  continuousModeDuration := 120000,
                  diffStats := some ⟨3, 1, "patch"⟩ }

/-! ## Claim theorems -/

/-- C10: for every `InstanceOptions` value, `NewInstance` constructs the
instance with `AutoYes` equal to `false`, ignoring the `AutoYes` field of the
supplied options, so a newly created instance never auto-accepts prompts until
`AutoYes` is set by a later operation. -/
theorem NewInstance_ignores_autoYes (opts : InstanceOptions) (absPath : Except String String)
    (now : Nat) (i : Instance) (h : NewInstance opts absPath now = .ok i) :
    i.autoYes = false := by
  cases absPath with
  | error e => simp [NewInstance] at h
  | ok p =>
    simp only [NewInstance, Except.ok.injEq] at h
    subst h
    rfl

/-- Witness for C10 at a concrete options value with `autoYes := true`. -/
theorem NewInstance_ignores_autoYes_witness :
    ∃ i, NewInstance ⟨"feat", "/repo", "claude", true⟩ (.ok "/repo") 0 = .ok i ∧
      i.autoYes = false := by
  refine ⟨_, rfl, ?_⟩
  exact NewInstance_ignores_autoYes ⟨"feat", "/repo", "claude", true⟩ (.ok "/repo") 0 _ rfl

/-- C9: creating a new instance when the fleet already holds
`GlobalInstanceLimit = 10` instances fails with an error and adds nothing, and
a successful creation happens only below the cap and adds exactly one
instance, so the fleet size never exceeds 10. -/
theorem handleNewInstance_cap (fleet : List Instance) (program : String)
    (absPath : Except String String) (now : Nat) :
    (fleet.length ≥ GlobalInstanceLimit →
      handleNewInstance fleet program absPath now =
        .error ("you can" ++ sqc ++ "t create more than " ++
          toString GlobalInstanceLimit ++ " instances")) ∧
    (∀ fleet', handleNewInstance fleet program absPath now = .ok fleet' →
      fleet.length < GlobalInstanceLimit ∧ fleet'.length = fleet.length + 1) ∧
    (fleet.length ≤ GlobalInstanceLimit →
      ∀ fleet', handleNewInstance fleet program absPath now = .ok fleet' →
        fleet'.length ≤ GlobalInstanceLimit) := by
  refine ⟨fun hge => ?_, fun fleet' h => ?_, fun hle fleet' h => ?_⟩
  · simp [handleNewInstance, hge]
  · by_cases hlt : fleet.length ≥ GlobalInstanceLimit
    · simp [handleNewInstance, hlt] at h
    · cases habs : absPath with
      | error e => simp [handleNewInstance, hlt, NewInstance, habs] at h
      | ok p =>
        simp only [handleNewInstance, hlt, if_false, NewInstance, habs,
          Except.ok.injEq] at h
        subst h
        simp
        omega
  · by_cases hlt : fleet.length ≥ GlobalInstanceLimit
    · simp [handleNewInstance, hlt] at h
    · cases habs : absPath with
      | error e => simp [handleNewInstance, hlt, NewInstance, habs] at h
      | ok p =>
        simp only [handleNewInstance, hlt, if_false, NewInstance, habs,
          Except.ok.injEq] at h
        subst h
        simp
        omega

/-- Witness for C9: a full fleet of ten instances refuses a new instance, and
an empty fleet accepts one while staying under the cap. -/
theorem handleNewInstance_cap_witness :
    (handleNewInstance (List.replicate 10 baseInst) "claude" (.ok "/repo") 0 =
      .error ("you can" ++ sqc ++ "t create more than " ++
        toString GlobalInstanceLimit ++ " instances")) ∧
    (∀ fleet', handleNewInstance [] "claude" (.ok "/repo") 0 = .ok fleet' →
      fleet'.length ≤ GlobalInstanceLimit) := by
  constructor
  · exact (handleNewInstance_cap (List.replicate 10 baseInst) "claude" (.ok "/repo") 0).1
      (by simp [GlobalInstanceLimit])
  · exact (handleNewInstance_cap [] "claude" (.ok "/repo") 0).2.2 (by simp)

/-- C4: calling `ManualRestart` on a started, non-paused, claude-family
instance less than ten seconds after `LastRestartTime` returns the
cooling-down error carrying the remaining wait, performs no pane action, and
leaves every instance field unchanged. -/
theorem ManualRestart_cooldown (i : Instance) (now : Nat) (env : RestartEnv)
    (hstart : i.started = true) (hpaused : i.status ≠ Status.Paused)
    (hprog : goContains (goToLower i.program) "claude" = true)
    (hcool : now - i.lastRestartTime < 10000) :
    ManualRestart i now env =
      (.error (RestartError.coolingDown (10000 - (now - i.lastRestartTime))), i, []) := by
  have hp : (i.status == Status.Paused) = false := by
    simp [hpaused]
  simp [ManualRestart, hstart, hp, hprog, hcool]

/-- Witness for C4: a restart two seconds after the previous one fails with
eight seconds of cooldown remaining and no state change. -/
theorem ManualRestart_cooldown_witness :
    ManualRestart { baseInst with lastRestartTime := 5000 } 7000 failRestartEnv =
      (.error (RestartError.coolingDown 8000),
       { baseInst with lastRestartTime := 5000 }, []) := by
  have h := ManualRestart_cooldown { baseInst with lastRestartTime := 5000 } 7000
    failRestartEnv rfl (by decide) (by decide) (by decide)
  simpa using h

/-- C6: a successful `ManualRestart` of a continuous-mode instance leaves
continuous mode enabled with its start time and duration unchanged, increments
`RestartAttempts` by exactly one, and resets `LastActivityTime` and the stored
content hash. -/
theorem ManualRestart_preserves_continuous (i : Instance) (now : Nat) (env : RestartEnv)
    (sid : String)
    (hstart : i.started = true) (hpaused : i.status ≠ Status.Paused)
    (hprog : goContains (goToLower i.program) "claude" = true)
    (hcool : ¬ now - i.lastRestartTime < 10000)
    (hcm : i.continuousMode = true)
    (hsession : findClaudeSessionNumber i env.homeDir env.readDir = .ok sid)
    (hstartOk : env.startOk = true) :
    (ManualRestart i now env).1 = .ok () ∧
    (ManualRestart i now env).2.1.continuousMode = true ∧
    (ManualRestart i now env).2.1.continuousModeStartTime = i.continuousModeStartTime ∧
    (ManualRestart i now env).2.1.continuousModeDuration = i.continuousModeDuration ∧
    (ManualRestart i now env).2.1.restartAttempts = i.restartAttempts + 1 ∧
    (ManualRestart i now env).2.1.lastActivityTime = env.endTime ∧
    (ManualRestart i now env).2.1.lastContentHash = "" := by
  have hp : (i.status == Status.Paused) = false := by simp [hpaused]
  obtain ⟨t, pa, br, st, pr, hh, ww, ca, ua, ay, prm, ds, lat, sc, we, cm, cmst, cmd,
    lch, ra, lrt, std, tmx, gwt⟩ := i
  simp only at hstart hcm hp hprog hsession hcool
  subst hstart
  subst hcm
  cases gwt with
  | none => simp [findClaudeSessionNumber] at hsession
  | some w =>
    simp only [findClaudeSessionNumber] at hsession
    simp [ManualRestart, hp, hprog, hcool, restartClaudeWithResume,
      findClaudeSessionNumber, hsession, hstartOk]

/-- Witness for C6 at a continuous-mode instance with a populated session
directory. -/
theorem ManualRestart_preserves_continuous_witness :
    (ManualRestart contInst 20000 okRestartEnv).1 = .ok () ∧
    (ManualRestart contInst 20000 okRestartEnv).2.1.continuousMode = true ∧
    (ManualRestart contInst 20000 okRestartEnv).2.1.continuousModeStartTime = 77000 ∧
    (ManualRestart contInst 20000 okRestartEnv).2.1.continuousModeDuration = 1800000 ∧
    (ManualRestart contInst 20000 okRestartEnv).2.1.restartAttempts = 2 ∧
    (ManualRestart contInst 20000 okRestartEnv).2.1.lastActivityTime = 99000 ∧
    (ManualRestart contInst 20000 okRestartEnv).2.1.lastContentHash = "" := by
  have h := ManualRestart_preserves_continuous contInst 20000 okRestartEnv "a"
    rfl (by decide) (by decide) (by decide) rfl rfl rfl
  simpa [contInst, baseInst, okRestartEnv] using h

/-- C5: pausing a started, non-paused instance with a dirty tree first commits
with the timestamped message; the commit precedes any pane close, and a failed
commit aborts the pause with the error, no close, no worktree removal, and an
unchanged status. -/
theorem Pause_dirty_commit (i : Instance) (env : PauseEnv)
    (hstart : i.started = true) (hpaused : i.status ≠ Status.Paused)
    (hdirty : env.isDirty = .ok true) :
    (∀ e, env.push = .error e →
      Pause i env = (.error ("failed to commit changes: " ++ e), i,
        [PaneAct.commitPush (pauseCommitMsg i.title env.nowRFC822)])) ∧
    (env.push = .ok () → ∃ rest, (Pause i env).2.2 =
      PaneAct.commitPush (pauseCommitMsg i.title env.nowRFC822) ::
        PaneAct.closePane :: rest) := by
  have hp : (i.status == Status.Paused) = false := by simp [hpaused]
  constructor
  · intro e he
    simp [Pause, hstart, hp, hdirty, he]
  · intro hok
    simp only [Pause, hstart, hp, hdirty, hok, Bool.not_true, if_false, if_true,
      Bool.false_eq_true, pauseAfterCommit]
    cases env.closeTmux with
    | error e => exact ⟨[], by simp [pauseAfterCommit]⟩
    | ok _ =>
      by_cases hwt : env.worktreeOnDisk
      · cases env.remove with
        | error e => exact ⟨[PaneAct.removeWorktree], by simp [pauseAfterCommit, hwt]⟩
        | ok _ =>
          cases env.prune with
          | error e =>
            exact ⟨[PaneAct.removeWorktree, PaneAct.pruneWorktree],
              by simp [pauseAfterCommit, hwt]⟩
          | ok _ =>
            exact ⟨[PaneAct.removeWorktree, PaneAct.pruneWorktree],
              by simp [pauseAfterCommit, hwt, combineErrors]⟩
      · exact ⟨[], by simp [pauseAfterCommit, hwt, combineErrors]⟩

/-- Witness for C5: a dirty pause whose commit fails returns the commit error
with only the commit attempt in the trace, and a dirty pause whose commit
succeeds closes the pane right after the commit. -/
theorem Pause_dirty_commit_witness :
    (Pause baseInst dirtyPushFailEnv =
      (.error "failed to commit changes: index locked", baseInst,
       [PaneAct.commitPush (pauseCommitMsg "feat" "01 Jan 24 10:00 UTC")])) ∧
    (∃ rest, (Pause baseInst dirtyOkEnv).2.2 =
      PaneAct.commitPush (pauseCommitMsg "feat" "01 Jan 24 10:00 UTC") ::
        PaneAct.closePane :: rest) := by
  constructor
  · exact (Pause_dirty_commit baseInst dirtyPushFailEnv rfl (by decide) rfl).1
      "index locked" rfl
  · exact (Pause_dirty_commit baseInst dirtyOkEnv rfl (by decide) rfl).2 rfl

/-- C3 (amended): serializing with `ToInstanceData` and rehydrating with
`FromInstanceData` preserves title, path, program, the watchdog-enabled flag,
the continuous-mode fields, `RestartAttempts`, `LastRestartTime` and a present
diff-stat cache; `AutoYes` is reset to `false` (the `FromInstanceData` struct
literal omits it).  A paused instance also keeps status, `StallCount` and
`LastActivityTime`; a non-paused instance (with a nonempty title and a
successful pane restore) comes back with status `Running`, and when its
watchdog is enabled `StallCount` and `LastActivityTime` are reinitialized. -/
theorem snapshot_roundTrip (i : Instance) (now : Nat) (env : StartEnv) :
    (i.status = Status.Paused → ∃ i',
      FromInstanceData (ToInstanceData i now) env = .ok i' ∧
      i'.title = i.title ∧ i'.path = i.path ∧ i'.program = i.program ∧
      i'.status = i.status ∧ i'.watchdogEnabled = i.watchdogEnabled ∧
      i'.continuousMode = i.continuousMode ∧
      i'.continuousModeStartTime = i.continuousModeStartTime ∧
      i'.continuousModeDuration = i.continuousModeDuration ∧
      i'.restartAttempts = i.restartAttempts ∧ i'.lastRestartTime = i.lastRestartTime ∧
      i'.stallCount = i.stallCount ∧ i'.lastActivityTime = i.lastActivityTime ∧
      i'.autoYes = false ∧
      (∀ d, i.diffStats = some d → i'.diffStats = some d)) ∧
    (i.status ≠ Status.Paused → i.title ≠ "" → env.restore = .ok () → ∃ i',
      FromInstanceData (ToInstanceData i now) env = .ok i' ∧
      i'.title = i.title ∧ i'.path = i.path ∧ i'.program = i.program ∧
      i'.status = Status.Running ∧ i'.watchdogEnabled = i.watchdogEnabled ∧
      i'.continuousMode = i.continuousMode ∧
      i'.continuousModeStartTime = i.continuousModeStartTime ∧
      i'.continuousModeDuration = i.continuousModeDuration ∧
      i'.restartAttempts = i.restartAttempts ∧ i'.lastRestartTime = i.lastRestartTime ∧
      (i.watchdogEnabled = true → i'.stallCount = 0 ∧ i'.lastActivityTime = env.now) ∧
      (i.watchdogEnabled = false → i'.stallCount = i.stallCount ∧
        i'.lastActivityTime = i.lastActivityTime) ∧
      i'.autoYes = false ∧
      (∀ d, i.diffStats = some d → i'.diffStats = some d)) := by
  constructor
  · intro hpz
    obtain ⟨t, pa, br, st, pr, hh, ww, ca, ua, ay, prm, ds, lat, sc, we, cm, cmst, cmd,
      lch, ra, lrt, std, tmx, gwt⟩ := i
    simp only at hpz
    subst hpz
    simp only [FromInstanceData, ToInstanceData, beq_self_eq_true, if_true]
    refine ⟨_, rfl, rfl, rfl, rfl, rfl, rfl, rfl, rfl, rfl, rfl, rfl, rfl, rfl, rfl, ?_⟩
    intro d hd
    subst hd
    simp
  · intro hnp ht hrestore
    obtain ⟨t, pa, br, st, pr, hh, ww, ca, ua, ay, prm, ds, lat, sc, we, cm, cmst, cmd,
      lch, ra, lrt, std, tmx, gwt⟩ := i
    simp only at hnp ht hrestore
    have hst : (st == Status.Paused) = false := by simp [hnp]
    have htt : (t == "") = false := by simp [ht]
    by_cases hw : we = true
    · subst hw
      simp only [FromInstanceData, ToInstanceData, hst, Start, htt, hrestore,
        finishStart, InitializeWatchdog, Bool.false_eq_true, if_false, if_true]
      refine ⟨_, rfl, rfl, rfl, rfl, rfl, rfl, rfl, rfl, rfl, rfl, rfl, ?_, ?_, rfl, ?_⟩
      · exact fun _ => ⟨rfl, rfl⟩
      · intro hcontra
        exact absurd hcontra (by decide)
      · intro d hd
        subst hd
        simp
    · have hw' : we = false := by
        cases we
        · rfl
        · exact absurd rfl hw
      subst hw'
      simp only [FromInstanceData, ToInstanceData, hst, Start, htt, hrestore,
        finishStart, InitializeWatchdog, Bool.false_eq_true, if_false, if_true]
      refine ⟨_, rfl, rfl, rfl, rfl, rfl, rfl, rfl, rfl, rfl, rfl, rfl, ?_, ?_, rfl, ?_⟩
      · intro hcontra
        exact absurd hcontra (by decide)
      · exact fun _ => ⟨rfl, rfl⟩
      · intro d hd
        subst hd
        simp

/-- Witness for C3 at a paused instance and at a running instance with a
successful restore. -/
theorem snapshot_roundTrip_witness :
    (∃ i', FromInstanceData (ToInstanceData pausedAutoYesInst 0) okStartEnv = .ok i' ∧
      i'.title = pausedAutoYesInst.title ∧ i'.path = pausedAutoYesInst.path ∧
      i'.program = pausedAutoYesInst.program ∧
      i'.status = pausedAutoYesInst.status ∧
      i'.watchdogEnabled = pausedAutoYesInst.watchdogEnabled ∧
      i'.continuousMode = pausedAutoYesInst.continuousMode ∧
      i'.continuousModeStartTime = pausedAutoYesInst.continuousModeStartTime ∧
      i'.continuousModeDuration = pausedAutoYesInst.continuousModeDuration ∧
      i'.restartAttempts = pausedAutoYesInst.restartAttempts ∧
      i'.lastRestartTime = pausedAutoYesInst.lastRestartTime ∧
      i'.stallCount = pausedAutoYesInst.stallCount ∧
      i'.lastActivityTime = pausedAutoYesInst.lastActivityTime ∧
      i'.autoYes = false ∧
      (∀ d, pausedAutoYesInst.diffStats = some d → i'.diffStats = some d)) := by
  exact (snapshot_roundTrip pausedAutoYesInst 0 okStartEnv).1 rfl

/-- Counterexample for C3 as frozen: the paused instance `pausedAutoYesInst`
has `AutoYes = true`, but its snapshot rehydrates with `AutoYes = false`. -/
theorem snapshot_roundTrip_cx :
    ((FromInstanceData (ToInstanceData pausedAutoYesInst 0) okStartEnv).toOption.map
      Instance.autoYes) = some false ∧ pausedAutoYesInst.autoYes = true := by
  constructor
  · rfl
  · rfl

/-- Once the accumulator holds the newest mtime, the session fold never moves. -/
theorem sessFold_stable (entries : List DirEntry) (acc : String × Nat)
    (h : ∀ e ∈ entries, (!e.isDir && goHasSuffix e.name ".jsonl" && e.infoOk) = true →
      e.modTime ≤ acc.2) :
    entries.foldl sessFoldStep acc = acc := by
  induction entries with
  | nil => rfl
  | cons x xs ih =>
    have hstep : sessFoldStep acc x = acc := by
      by_cases hg : (!x.isDir && goHasSuffix x.name ".jsonl" && x.infoOk) = true
      · have hle := h x (List.mem_cons_self x xs) hg
        have : decide (x.modTime > acc.2) = false := by
          simp
          omega
        simp [sessFoldStep, hg, this]
      · have hg' : (!x.isDir && goHasSuffix x.name ".jsonl" && x.infoOk) = false := by
          cases hv : (!x.isDir && goHasSuffix x.name ".jsonl" && x.infoOk)
          · rfl
          · exact absurd hv hg
        simp only [sessFoldStep]
        rw [if_neg]
        simp [hg']
    rw [List.foldl_cons, hstep]
    exact ih fun e he hg => h e (List.mem_cons_of_mem x he) hg

/-- The session fold selects the strictly most recent well-formed `.jsonl`
entry. -/
theorem sessFold_select (e : DirEntry) :
    ∀ (entries : List DirEntry) (acc : String × Nat), e ∈ entries →
    (!e.isDir && goHasSuffix e.name ".jsonl" && e.infoOk) = true →
    acc.2 < e.modTime →
    (∀ e' ∈ entries, (!e'.isDir && goHasSuffix e'.name ".jsonl" && e'.infoOk) = true →
      e' = e ∨ e'.modTime < e.modTime) →
    entries.foldl sessFoldStep acc = (goTrimSuffix e.name ".jsonl", e.modTime) := by
  intro entries
  induction entries with
  | nil => intro acc hmem; exact absurd hmem (List.not_mem_nil e)
  | cons x xs ih =>
    intro acc hmem hgood hlt hmax
    by_cases hx : x = e
    · subst hx
      have hstep : sessFoldStep acc x = (goTrimSuffix x.name ".jsonl", x.modTime) := by
        have hd : decide (x.modTime > acc.2) = true := by simpa using hlt
        simp [sessFoldStep, hgood, hd]
      rw [List.foldl_cons, hstep]
      exact sessFold_stable xs _ fun e' he' hg' => by
        rcases hmax e' (List.mem_cons_of_mem x he') hg' with h1 | h1
        · subst h1; exact Nat.le_refl _
        · exact Nat.le_of_lt h1
    · have hmem' : e ∈ xs := by
        rcases List.mem_cons.mp hmem with h1 | h1
        · exact absurd h1.symm hx
        · exact h1
      have hmax' : ∀ e' ∈ xs, (!e'.isDir && goHasSuffix e'.name ".jsonl" && e'.infoOk) = true →
          e' = e ∨ e'.modTime < e.modTime :=
        fun e' he' hg' => hmax e' (List.mem_cons_of_mem x he') hg'
      rw [List.foldl_cons]
      by_cases hg : (!x.isDir && goHasSuffix x.name ".jsonl" && x.infoOk) = true
      · rcases hmax x (List.mem_cons_self x xs) hg with h1 | h1
        · exact absurd h1 hx
        · by_cases hafter : x.modTime > acc.2
          · have hstep : sessFoldStep acc x = (goTrimSuffix x.name ".jsonl", x.modTime) := by
              have hd : decide (x.modTime > acc.2) = true := by simpa using hafter
              simp [sessFoldStep, hg, hd]
            rw [hstep]
            exact ih _ hmem' hgood h1 hmax'
          · have hstep : sessFoldStep acc x = acc := by
              have hd : decide (x.modTime > acc.2) = false := by simpa using hafter
              simp [sessFoldStep, hg, hd]
            rw [hstep]
            exact ih _ hmem' hgood hlt hmax'
      · have hg' : (!x.isDir && goHasSuffix x.name ".jsonl" && x.infoOk) = false := by
          cases hv : (!x.isDir && goHasSuffix x.name ".jsonl" && x.infoOk)
          · rfl
          · exact absurd hv hg
        have hstep : sessFoldStep acc x = acc := by
          simp only [sessFoldStep]
          rw [if_neg]
          simp [hg']
        rw [hstep]
        exact ih _ hmem' hgood hlt hmax'

/-- C7 (amended): `findClaudeSessionFromFiles` looks in
`<home>/.claude/projects/<dir-key>` with the dir-key built by stripping the
leading separator of the working-tree path and dashing the rest; it returns the
basename (without `.jsonl`) of the strictly most recently modified well-formed
`.jsonl` entry provided that basename is nonempty and the mtime is after Go's
zero time, and it returns an error when the directory cannot be read or holds
no `.jsonl` file (it also errors when the selected basename is empty, e.g. for
a file named exactly `.jsonl` — the divergence the counterexample records). -/
theorem findClaudeSession_spec (home wt : String)
    (readDir : String → Except String (List DirEntry)) :
    (∀ entries e, readDir (home ++ "/.claude/projects" ++ "/" ++ dirKeyOf wt) = .ok entries →
      e ∈ entries → (!e.isDir && goHasSuffix e.name ".jsonl" && e.infoOk) = true →
      0 < e.modTime →
      (∀ e' ∈ entries, (!e'.isDir && goHasSuffix e'.name ".jsonl" && e'.infoOk) = true →
        e' = e ∨ e'.modTime < e.modTime) →
      goTrimSuffix e.name ".jsonl" ≠ "" →
      findClaudeSessionFromFiles (.ok home) readDir wt = .ok (goTrimSuffix e.name ".jsonl")) ∧
    (∀ msg, readDir (home ++ "/.claude/projects" ++ "/" ++ dirKeyOf wt) = .error msg →
      ∃ err, findClaudeSessionFromFiles (.ok home) readDir wt = .error err) ∧
    (∀ entries, readDir (home ++ "/.claude/projects" ++ "/" ++ dirKeyOf wt) = .ok entries →
      (∀ e ∈ entries, (!e.isDir && goHasSuffix e.name ".jsonl") = false) →
      ∃ err, findClaudeSessionFromFiles (.ok home) readDir wt = .error err) := by
  refine ⟨fun entries e hdir hmem hgood hpos hmax hbase => ?_,
    fun msg hdir => ?_, fun entries hdir hnone => ?_⟩
  · have hfold := sessFold_select e entries ("", 0) hmem hgood hpos hmax
    have hb : (goTrimSuffix e.name ".jsonl" == "") = false := by
      simp [hbase]
    simp [findClaudeSessionFromFiles, hdir, hfold, hb]
  · simp [findClaudeSessionFromFiles, hdir]
  · have hfold : entries.foldl sessFoldStep ("", 0) = ("", 0) := by
      refine sessFold_stable entries ("", 0) fun e he hg => ?_
      have := hnone e he
      simp [this] at hg
    simp [findClaudeSessionFromFiles, hdir, hfold]

/-- Witness for C7, the spec's S6 scenario: `a.jsonl` (older) and `b.jsonl`
(newer) yield `"b"`; an unreadable directory and a `.jsonl`-free directory
yield errors. -/
theorem findClaudeSession_spec_witness :
    (findClaudeSessionFromFiles (.ok "/home/u")
      (fun _ => .ok [⟨"a.jsonl", false, true, 10⟩, ⟨"b.jsonl", false, true, 19⟩])
      "/repo/worktrees/feat" = .ok "b") ∧
    (∃ err, findClaudeSessionFromFiles (.ok "/home/u")
      (fun _ => .error "missing") "/repo/worktrees/feat" = .error err) ∧
    (∃ err, findClaudeSessionFromFiles (.ok "/home/u")
      (fun _ => .ok [⟨"notes.txt", false, true, 10⟩]) "/repo/worktrees/feat" =
        .error err) := by
  refine ⟨?_, ?_, ?_⟩
  · have h := (findClaudeSession_spec "/home/u" "/repo/worktrees/feat"
      (fun _ => .ok [⟨"a.jsonl", false, true, 10⟩, ⟨"b.jsonl", false, true, 19⟩])).1
      [⟨"a.jsonl", false, true, 10⟩, ⟨"b.jsonl", false, true, 19⟩]
      ⟨"b.jsonl", false, true, 19⟩ rfl (by decide) (by decide) (by decide)
      (by decide) (by decide)
    simpa using h
  · exact (findClaudeSession_spec "/home/u" "/repo/worktrees/feat"
      (fun _ => .error "missing")).2.1 "missing" rfl
  · exact (findClaudeSession_spec "/home/u" "/repo/worktrees/feat"
      (fun _ => .ok [⟨"notes.txt", false, true, 10⟩])).2.2
      [⟨"notes.txt", false, true, 10⟩] rfl (by decide)

/-- Counterexample for C7 as frozen: a directory whose only entry is the
`.jsonl` file named exactly `.jsonl` (a well-formed `.jsonl` file, so the
frozen claim demands its empty basename back), yet the function reports the
no-session-files error. -/
theorem findClaudeSession_cx :
    (∃ err, findClaudeSessionFromFiles (.ok "/home/u")
      (fun _ => .ok [⟨".jsonl", false, true, 5⟩]) "/w" = .error err) ∧
    ((!(DirEntry.isDir ⟨".jsonl", false, true, 5⟩) &&
      goHasSuffix (DirEntry.name ⟨".jsonl", false, true, 5⟩) ".jsonl" &&
      DirEntry.infoOk ⟨".jsonl", false, true, 5⟩) = true) := by
  exact ⟨⟨_, rfl⟩, by decide⟩

/-- C1 (amended): for a started, non-paused, watchdog-enabled instance with a
successful capture, `DetectStall` returns true iff either (a) continuous mode
is on and the content shows a completion or prompt pattern, the stored hash
equals the normalized content hash, and more than the 2-second stability
window has passed since the last activity; or (b) otherwise, the stored hash
equals the raw content hash (the content is unchanged since the previous
sample) and the content shows a prompt pattern or the time since the last
activity exceeds the applicable timeout (`continuousTimeoutSec` in continuous
mode, `normalTimeoutSec` otherwise).  A prompt pattern alone is not
sufficient: the sample must also be unchanged. -/
theorem DetectStall_characterization (i : Instance) (content : String) (now nT cT : Nat)
    (hs : i.started = true) (hp : i.status ≠ Status.Paused)
    (hw : i.watchdogEnabled = true) :
    (DetectStall i (.ok content) now nT cT).1 =
      (if i.continuousMode && (hasCompletionPatternIn content || hasStallPatternIn content) then
        (i.lastContentHash == hashContent (normalizeContent content)) &&
          decide (now - i.lastActivityTime > 2000)
      else
        (i.lastContentHash == hashContent content) &&
          (hasStallPatternIn content ||
            decide (now - i.lastActivityTime > (if i.continuousMode then cT else nT) * 1000))) := by
  have hp' : (i.status == Status.Paused) = false := by simp [hp]
  cases hcm : i.continuousMode && (hasCompletionPatternIn content || hasStallPatternIn content) with
  | true =>
    cases hh : i.lastContentHash == hashContent (normalizeContent content) with
    | true =>
      by_cases ht : now - i.lastActivityTime > 2000
      · simp [DetectStall, hs, hp', hw, hcm, hh, ht]
      · simp [DetectStall, hs, hp', hw, hcm, hh, ht]
        split <;> rfl
    | false =>
      simp [DetectStall, hs, hp', hw, hcm, hh]
      split <;> rfl
  | false =>
    cases hh : i.lastContentHash == hashContent content with
    | true =>
      cases hcmode : i.continuousMode with
      | true =>
        rw [hcmode, Bool.true_and] at hcm
        have h2 : hasStallPatternIn content = false := by
          cases hv : hasStallPatternIn content
          · rfl
          · rw [hv] at hcm; simp at hcm
        have h3 : hasCompletionPatternIn content = false := by
          cases hv : hasCompletionPatternIn content
          · rfl
          · rw [hv] at hcm; simp at hcm
        by_cases hto : now - i.lastActivityTime > cT * 1000
        · simp [DetectStall, hs, hp', hw, hh, hcmode, h2, h3, hto]
        · simp [DetectStall, hs, hp', hw, hh, hcmode, h2, h3, hto]
      | false =>
        by_cases hsp : hasStallPatternIn content = true
        · simp [DetectStall, hs, hp', hw, hcm, hh, hcmode, hsp]
        · by_cases hto : now - i.lastActivityTime > nT * 1000
          · simp [DetectStall, hs, hp', hw, hcm, hh, hcmode, hsp, hto]
          · simp [DetectStall, hs, hp', hw, hcm, hh, hcmode, hsp, hto]
    | false => simp [DetectStall, hs, hp', hw, hcm, hh]

/-- Witness for C1 at the concrete prompt capture. -/
theorem DetectStall_characterization_witness :
    (DetectStall baseInst (.ok promptContent) 0 300 60).1 =
      (if baseInst.continuousMode &&
          (hasCompletionPatternIn promptContent || hasStallPatternIn promptContent) then
        (baseInst.lastContentHash == hashContent (normalizeContent promptContent)) &&
          decide (0 - baseInst.lastActivityTime > 2000)
      else
        (baseInst.lastContentHash == hashContent promptContent) &&
          (hasStallPatternIn promptContent ||
            decide (0 - baseInst.lastActivityTime >
              (if baseInst.continuousMode then 60 else 300) * 1000))) :=
  DetectStall_characterization baseInst promptContent 0 300 60 rfl (by decide) rfl

/-- Counterexample for C1 as frozen: the capture contains a prompt-set pattern,
yet `DetectStall` returns false because the content hash changed on this very
tick (the stored hash is still empty). -/
theorem DetectStall_cx :
    hasStallPatternIn promptContent = true ∧
    (DetectStall baseInst (.ok promptContent) 0 300 60).1 = false := by
  constructor
  · decide
  · decide

/-- C2 (code divergence): with the default configuration
(`max_continue_attempts = 3`), five watchdog ticks over one unchanged prompt
capture perform four successful injections — `StallCount` reaches 4 with no
content change in between, exceeding the configured bound, because nothing
in the watchdog path reads `MaxContinueAttempts`. -/
theorem watchdog_injection_unbounded :
    (watchdogTicks baseInst promptContent [1000, 2000, 3000, 4000, 5000]
      (DefaultConfig (some "user")) 60 (fun _ => true)).stallCount = 4 ∧
    (DefaultConfig (some "user")).maxContinueAttempts = 3 := by
  constructor
  · decide
  · rfl

/-- A digit never `BEq`s a non-digit character. -/
theorem digit_beq_false {c t : Char} (h : isDigitCh c = true) (ht : isDigitCh t = false) :
    (c == t) = false := by
  cases hv : c == t
  · rfl
  · have : c = t := eq_of_beq hv
    subst this
    rw [h] at ht
    exact absurd ht (by simp)

/-- A non-escape character never `BEq`s the escape character. -/
theorem ne27_beq_esc_false {c : Char} (h : (c.toNat != 27) = true) :
    (c == Char.ofNat 27) = false := by
  cases hv : c == Char.ofNat 27
  · rfl
  · have : c = Char.ofNat 27 := eq_of_beq hv
    subst this
    simp at h

/-- `expectP` consumes one character. -/
theorem expectP_consumes (p : Char → Bool) : Consumes (expectP p) := by
  intro l r h
  cases l with
  | nil => simp [expectP] at h
  | cons c cs =>
    simp only [expectP] at h
    by_cases hp : p c = true
    · rw [if_pos hp] at h
      cases h
      simp
    · rw [if_neg hp] at h
      cases h

/-- Sequencing preserves consumption. -/
theorem pseq_consumes {f g : List Char → Option (List Char)}
    (hf : Consumes f) (hg : Consumes g) : Consumes (pseq f g) := by
  intro l r h
  simp only [pseq] at h
  cases hfl : f l with
  | none => rw [hfl] at h; cases h
  | some m =>
    rw [hfl] at h
    simp only [Option.bind] at h
    exact Nat.lt_trans (hg m r h) (hf l m hfl)

/-- `dropWhile` never lengthens a list. -/
theorem dropWhile_len_le (p : Char → Bool) : ∀ l : List Char,
    (l.dropWhile p).length ≤ l.length := by
  intro l
  induction l with
  | nil => simp
  | cons c cs ih =>
    simp only [List.dropWhile]
    by_cases hp : p c = true
    · rw [hp]
      exact Nat.le_trans ih (Nat.le_succ _)
    · have : p c = false := by
        cases hv : p c
        · rfl
        · exact absurd hv hp
      rw [this]

/-- `matchAnsi` consumes at least one character. -/
theorem matchAnsi_consumes : Consumes matchAnsi := by
  intro l r h
  simp only [matchAnsi] at h
  cases hp : pseq (expectCh (Char.ofNat 27)) (expectCh '[') l with
  | none => rw [hp] at h; cases h
  | some m =>
    rw [hp] at h
    simp only [Option.bind] at h
    have h1 : m.length < l.length :=
      pseq_consumes (expectP_consumes _) (expectP_consumes _) l m hp
    have h2 : r.length < (m.dropWhile isDigitSemi).length :=
      expectP_consumes _ _ r h
    exact Nat.lt_trans (Nat.lt_of_lt_of_le h2 (dropWhile_len_le _ m)) h1

/-- `matchTime2` consumes at least one character. -/
theorem matchTime2_consumes : Consumes matchTime2 := by
  unfold matchTime2
  repeat
    first
    | exact expectP_consumes _
    | apply pseq_consumes

/-- `matchTime1` consumes at least one character. -/
theorem matchTime1_consumes : Consumes matchTime1 := by
  unfold matchTime1
  repeat
    first
    | exact expectP_consumes _
    | apply pseq_consumes

/-- `matchDate` consumes at least one character. -/
theorem matchDate_consumes : Consumes matchDate := by
  unfold matchDate
  repeat
    first
    | exact expectP_consumes _
    | apply pseq_consumes

/-- `matchTimeDate` consumes at least one character. -/
theorem matchTimeDate_consumes : Consumes matchTimeDate := by
  intro l r h
  simp only [matchTimeDate] at h
  cases h2 : matchTime2 l with
  | some m =>
    rw [h2] at h
    simp only [Option.orElse] at h
    cases h
    exact matchTime2_consumes l r h2
  | none =>
    rw [h2] at h
    simp only [Option.orElse] at h
    cases h1 : matchTime1 l with
    | some m =>
      rw [h1] at h
      cases h
      exact matchTime1_consumes l r h1
    | none =>
      rw [h1] at h
      exact matchDate_consumes l r h

/-- `matchPercent` consumes at least one character. -/
theorem matchPercent_consumes : Consumes matchPercent := by
  intro l r h
  simp only [matchPercent] at h
  by_cases hempty : l.takeWhile isDigitCh = []
  · rw [if_pos hempty] at h; cases h
  · rw [if_neg hempty] at h
    exact Nat.lt_of_lt_of_le (expectP_consumes _ _ r h) (dropWhile_len_le _ l)

/-- The scanner ignores surplus fuel. -/
theorem scanAux_congr (f : List Char → Option (List Char)) (hf : Consumes f) :
    ∀ n l fuel₁ fuel₂, l.length ≤ n → l.length ≤ fuel₁ → l.length ≤ fuel₂ →
    scanStripAux f fuel₁ l = scanStripAux f fuel₂ l := by
  intro n
  induction n with
  | zero =>
    intro l fuel₁ fuel₂ hn _ _
    have : l = [] := List.eq_nil_of_length_eq_zero (Nat.le_zero.mp hn)
    subst this
    cases fuel₁ <;> cases fuel₂ <;> rfl
  | succ n ih =>
    intro l fuel₁ fuel₂ hn h1 h2
    cases l with
    | nil => cases fuel₁ <;> cases fuel₂ <;> rfl
    | cons c cs =>
      cases fuel₁ with
      | zero => exact absurd h1 (by simp)
      | succ k₁ =>
        cases fuel₂ with
        | zero => exact absurd h2 (by simp)
        | succ k₂ =>
          simp only [scanStripAux]
          cases hm : f (c :: cs) with
          | some rest =>
            have hlen : rest.length < cs.length + 1 := hf _ _ hm
            exact ih rest k₁ k₂ (by simp at hn; omega) (by simp at h1; omega)
              (by simp at h2; omega)
          | none =>
            have := ih cs k₁ k₂ (by simp at hn; omega) (by simp at h1; omega)
              (by simp at h2; omega)
            rw [this]

/-- Scanner step: no match at the head. -/
theorem scanStrip_cons_none {f : List Char → Option (List Char)} {c : Char}
    {cs : List Char} (h : f (c :: cs) = none) :
    scanStrip f (c :: cs) = c :: scanStrip f cs := by
  simp only [scanStrip, List.length_cons, scanStripAux, h]

/-- Scanner step: a match at the head is deleted. -/
theorem scanStrip_head_match {f : List Char → Option (List Char)} (hf : Consumes f)
    {l r : List Char} (hne : l ≠ []) (h : f l = some r) :
    scanStrip f l = scanStrip f r := by
  cases l with
  | nil => exact absurd rfl hne
  | cons c cs =>
    simp only [scanStrip, List.length_cons, scanStripAux, h]
    have hlen : r.length < cs.length + 1 := hf _ _ h
    exact scanAux_congr f hf cs.length r cs.length r.length (by omega) (by omega)
      (Nat.le_refl _)

/-- The scanner copies a region whose characters can start no match. -/
theorem scanStrip_skip {f : List Char → Option (List Char)} {startP : Char → Bool}
    (hstart : ∀ c cs, startP c = false → f (c :: cs) = none) :
    ∀ (a rest : List Char), (∀ c ∈ a, startP c = false) →
    scanStrip f (a ++ rest) = a ++ scanStrip f rest := by
  intro a
  induction a with
  | nil => intro rest _; rfl
  | cons c a' ih =>
    intro rest ha
    have h0 : f (c :: (a' ++ rest)) = none :=
      hstart c _ (ha c (List.mem_cons_self c a'))
    rw [List.cons_append, scanStrip_cons_none h0,
      ih rest fun x hx => ha x (List.mem_cons_of_mem c hx)]
    simp

/-- The scanner is the identity on match-free input. -/
theorem scanStrip_id {f : List Char → Option (List Char)} {startP : Char → Bool}
    (hstart : ∀ c cs, startP c = false → f (c :: cs) = none)
    (l : List Char) (hl : ∀ c ∈ l, startP c = false) : scanStrip f l = l := by
  have := scanStrip_skip hstart l [] hl
  simpa [scanStrip, scanStripAux] using this

/-- An ANSI match must start at the escape character. -/
theorem matchAnsi_none_head {c : Char} (cs : List Char)
    (h : (c == Char.ofNat 27) = false) : matchAnsi (c :: cs) = none := by
  simp [matchAnsi, pseq, expectCh, expectP, h]

/-- A time or date match must start at a digit. -/
theorem matchTimeDate_none_head {c : Char} (cs : List Char)
    (h : isDigitCh c = false) : matchTimeDate (c :: cs) = none := by
  have h2 : matchTime2 (c :: cs) = none := by
    simp [matchTime2, pseq, expectDigit, expectP, h]
  have h1 : matchTime1 (c :: cs) = none := by
    simp [matchTime1, pseq, expectDigit, expectP, h]
  have hd : matchDate (c :: cs) = none := by
    simp [matchDate, pseq, expectDigit, expectP, h]
  simp [matchTimeDate, h2, h1, hd, Option.orElse]

/-- A percentage match must start at a digit. -/
theorem matchPercent_none_head {c : Char} (cs : List Char)
    (h : isDigitCh c = false) : matchPercent (c :: cs) = none := by
  simp [matchPercent, List.takeWhile, h]

/-- `dropWhile` distributes over append when it stops inside the left part. -/
theorem dropWhile_append_cons (p : Char → Bool) :
    ∀ (t : List Char) (w : Char) (ws rest : List Char), t.dropWhile p = w :: ws →
    (t ++ rest).dropWhile p = w :: (ws ++ rest) := by
  intro t
  induction t with
  | nil => intro w ws rest h; cases h
  | cons c t' ih =>
    intro w ws rest h
    simp only [List.dropWhile] at h ⊢
    by_cases hp : p c = true
    · rw [hp] at h ⊢
      exact ih w ws rest h
    · have hp' : p c = false := by
        cases hv : p c
        · rfl
        · exact absurd hv hp
      rw [hp'] at h ⊢
      cases h
      rfl

/-- `takeWhile` ignores the right part of an append when it stops inside the
left part. -/
theorem takeWhile_append_stop (p : Char → Bool) :
    ∀ (t : List Char) (w : Char) (ws rest : List Char), t.dropWhile p = w :: ws →
    (t ++ rest).takeWhile p = t.takeWhile p := by
  intro t
  induction t with
  | nil => intro w ws rest h; cases h
  | cons c t' ih =>
    intro w ws rest h
    by_cases hp : p c = true
    · simp only [List.dropWhile_cons, hp, if_true] at h
      simp only [List.cons_append, List.takeWhile_cons, hp, if_true]
      rw [ih w ws rest h]
    · have hp' : p c = false := by
        cases hv : p c
        · rfl
        · exact absurd hv hp
      simp only [List.cons_append, List.takeWhile_cons, hp', Bool.false_eq_true, if_false]

/-- Members of a `takeWhile` satisfy the predicate. -/
theorem takeWhile_mem_p (p : Char → Bool) :
    ∀ (l : List Char) (x : Char), x ∈ l.takeWhile p → p x = true := by
  intro l
  induction l with
  | nil => intro x hx; cases hx
  | cons c cs ih =>
    intro x hx
    simp only [List.takeWhile] at hx
    by_cases hp : p c = true
    · rw [hp] at hx
      rcases List.mem_cons.mp hx with h1 | h1
      · subst h1; exact hp
    
      · exact ih x h1
    · have hp' : p c = false := by
        cases hv : p c
        · rfl
        · exact absurd hv hp
      rw [hp'] at hx
      cases hx

/-- A full ANSI escape at the head of a list is matched exactly. -/
theorem matchAnsi_slot {u : List Char} (rest : List Char) (hu : isAnsiSlot u = true) :
    matchAnsi (u ++ rest) = some rest := by
  cases u with
  | nil => simp [isAnsiSlot] at hu
  | cons c1 u1 =>
    cases u1 with
    | nil => simp [isAnsiSlot] at hu
    | cons c2 t =>
      simp only [isAnsiSlot, Bool.and_eq_true] at hu
      obtain ⟨⟨h1, h2⟩, h3⟩ := hu
      have hc1 : c1 = Char.ofNat 27 := eq_of_beq h1
      have hc2 : c2 = '[' := eq_of_beq h2
      subst hc1
      subst hc2
      cases hdw : t.dropWhile isDigitSemi with
      | nil => rw [hdw] at h3; simp at h3
      | cons w ws =>
        cases ws with
        | cons y ys => rw [hdw] at h3; simp at h3
        | nil =>
          rw [hdw] at h3
          simp only at h3
          have hdrop := dropWhile_append_cons isDigitSemi t w [] rest hdw
          simp only [List.cons_append, List.append_assoc]
          simp [matchAnsi, pseq, expectCh, expectP, hdrop, h3]

/-- A full two-digit-hour time at the head of a list is matched exactly by the
first alternation branch. -/
theorem matchTimeDate_slot_time2 {u : List Char} (rest : List Char)
    (hu : isTime2Slot u = true) : matchTimeDate (u ++ rest) = some rest := by
  unfold isTime2Slot at hu
  split at hu
  · next d1 d2 c1 d3 d4 c2 d5 d6 =>
    simp only [Bool.and_eq_true] at hu
    obtain ⟨⟨⟨⟨⟨⟨⟨hd1, hd2⟩, hc1⟩, hd3⟩, hd4⟩, hc2⟩, hd5⟩, hd6⟩ := hu
    have e1 : c1 = ':' := eq_of_beq hc1
    have e2 : c2 = ':' := eq_of_beq hc2
    subst e1
    subst e2
    have h2 : matchTime2 ([d1, d2, ':', d3, d4, ':', d5, d6] ++ rest) = some rest := by
      simp [matchTime2, pseq, expectDigit, expectCh, expectP, hd1, hd2, hd3, hd4, hd5, hd6]
    simp only [List.cons_append, List.nil_append] at h2 ⊢
    simp [matchTimeDate, h2, Option.orElse]
  · next => exact absurd hu (by simp)

/-- A full one-digit-hour time at the head of a list is matched exactly (the
two-digit branch fails at the colon). -/
theorem matchTimeDate_slot_time1 {u : List Char} (rest : List Char)
    (hu : isTime1Slot u = true) : matchTimeDate (u ++ rest) = some rest := by
  unfold isTime1Slot at hu
  split at hu
  · next d1 c1 d2 d3 c2 d4 d5 =>
    simp only [Bool.and_eq_true] at hu
    obtain ⟨⟨⟨⟨⟨⟨hd1, hc1⟩, hd2⟩, hd3⟩, hc2⟩, hd4⟩, hd5⟩ := hu
    have e1 : c1 = ':' := eq_of_beq hc1
    have e2 : c2 = ':' := eq_of_beq hc2
    subst e1
    subst e2
    have hcolon : isDigitCh ':' = false := by decide
    have h2 : matchTime2 ([d1, ':', d2, d3, ':', d4, d5] ++ rest) = none := by
      simp [matchTime2, pseq, expectDigit, expectP, hd1, hcolon]
    have h1 : matchTime1 ([d1, ':', d2, d3, ':', d4, d5] ++ rest) = some rest := by
      simp [matchTime1, pseq, expectDigit, expectCh, expectP, hd1, hd2, hd3, hd4, hd5]
    simp only [List.cons_append, List.nil_append] at h2 h1 ⊢
    simp [matchTimeDate, h2, h1, Option.orElse]
  · next => exact absurd hu (by simp)

/-- A full date at the head of a list is matched exactly (both time branches
fail within the first three characters). -/
theorem matchTimeDate_slot_date {u : List Char} (rest : List Char)
    (hu : isDateSlot u = true) : matchTimeDate (u ++ rest) = some rest := by
  unfold isDateSlot at hu
  split at hu
  · next d1 d2 d3 d4 c1 d5 d6 c2 d7 d8 =>
    simp only [Bool.and_eq_true] at hu
    obtain ⟨⟨⟨⟨⟨⟨⟨⟨⟨hd1, hd2⟩, hd3⟩, hd4⟩, hc1⟩, hd5⟩, hd6⟩, hc2⟩, hd7⟩, hd8⟩ := hu
    have e1 : c1 = '-' := eq_of_beq hc1
    have e2 : c2 = '-' := eq_of_beq hc2
    subst e1
    subst e2
    have hnc : isDigitCh ':' = false := by decide
    have h3c : d3 ≠ ':' := by
      intro hh
      rw [hh, hnc] at hd3
      exact absurd hd3 (by simp)
    have h2c : d2 ≠ ':' := by
      intro hh
      rw [hh, hnc] at hd2
      exact absurd hd2 (by simp)
    have h2 : matchTime2 ([d1, d2, d3, d4, '-', d5, d6, '-', d7, d8] ++ rest) = none := by
      simp [matchTime2, pseq, expectDigit, expectCh, expectP, hd1, hd2, h3c]
    have h1 : matchTime1 ([d1, d2, d3, d4, '-', d5, d6, '-', d7, d8] ++ rest) = none := by
      simp [matchTime1, pseq, expectDigit, expectCh, expectP, hd1, h2c]
    have hd : matchDate ([d1, d2, d3, d4, '-', d5, d6, '-', d7, d8] ++ rest) = some rest := by
      simp [matchDate, pseq, expectDigit, expectCh, expectP, hd1, hd2, hd3, hd4, hd5,
        hd6, hd7, hd8]
    simp only [List.cons_append, List.nil_append] at h2 h1 hd ⊢
    simp [matchTimeDate, h2, h1, hd, Option.orElse]
  · next => exact absurd hu (by simp)

/-- A full percentage at the head of a list is matched exactly. -/
theorem matchPercent_slot {u : List Char} (rest : List Char)
    (hu : isPercentSlot u = true) : matchPercent (u ++ rest) = some rest := by
  simp only [isPercentSlot, Bool.and_eq_true] at hu
  obtain ⟨hne, hdrop⟩ := hu
  have hdrop' : u.dropWhile isDigitCh = ['%'] := by
    have := eq_of_beq hdrop
    exact this
  have htake := takeWhile_append_stop isDigitCh u '%' [] rest hdrop'
  have hdw := dropWhile_append_cons isDigitCh u '%' [] rest hdrop'
  have hne' : u.takeWhile isDigitCh ≠ [] := by
    intro hcontra
    rw [hcontra] at hne
    simp at hne
  simp only [matchPercent, htake, hdw]
  rw [if_neg hne']
  simp [expectCh, expectP]

/-- No time or date can match at any point of a digit run that is terminated by
a percent sign: every alternation branch dies at the percent sign or earlier,
before reaching the tail. -/
theorem matchTimeDate_none_digitrun :
    ∀ (run : List Char), run ≠ [] → (∀ c ∈ run, isDigitCh c = true) →
    ∀ t : List Char, matchTimeDate (run ++ '%' :: t) = none := by
  have hpc : isDigitCh '%' = false := by decide
  have hpcolon : ('%' == ':') = false := by decide
  have hpdash : ('%' == '-') = false := by decide
  intro run hne hrun t
  cases run with
  | nil => exact absurd rfl hne
  | cons a r1 =>
    have ha : isDigitCh a = true := hrun a (by simp)
    cases r1 with
    | nil =>
      have h2 : matchTime2 ([a] ++ '%' :: t) = none := by
        simp [matchTime2, pseq, expectDigit, expectP, ha, hpc]
      have h1 : matchTime1 ([a] ++ '%' :: t) = none := by
        simp [matchTime1, pseq, expectDigit, expectCh, expectP, ha, hpcolon]
      have hd : matchDate ([a] ++ '%' :: t) = none := by
        simp [matchDate, pseq, expectDigit, expectP, ha, hpc]
      simp only [List.cons_append, List.nil_append] at h2 h1 hd ⊢
      simp [matchTimeDate, h2, h1, hd, Option.orElse]
    | cons b r2 =>
      have hb : isDigitCh b = true := hrun b (by simp)
      have hbc : b ≠ ':' := by
        intro hh
        rw [hh] at hb
        exact absurd hb (by decide)
      cases r2 with
      | nil =>
        have h2 : matchTime2 ([a, b] ++ '%' :: t) = none := by
          simp [matchTime2, pseq, expectDigit, expectCh, expectP, ha, hb, hpcolon]
        have h1 : matchTime1 ([a, b] ++ '%' :: t) = none := by
          simp [matchTime1, pseq, expectDigit, expectCh, expectP, ha, hbc]
        have hd : matchDate ([a, b] ++ '%' :: t) = none := by
          simp [matchDate, pseq, expectDigit, expectP, ha, hb, hpc]
        simp only [List.cons_append, List.nil_append] at h2 h1 hd ⊢
        simp [matchTimeDate, h2, h1, hd, Option.orElse]
      | cons c3 r3 =>
        have hc3 : isDigitCh c3 = true := hrun c3 (by simp)
        have hc3c : c3 ≠ ':' := by
          intro hh
          rw [hh] at hc3
          exact absurd hc3 (by decide)
        cases r3 with
        | nil =>
          have h2 : matchTime2 ([a, b, c3] ++ '%' :: t) = none := by
            simp [matchTime2, pseq, expectDigit, expectCh, expectP, ha, hb, hc3c]
          have h1 : matchTime1 ([a, b, c3] ++ '%' :: t) = none := by
            simp [matchTime1, pseq, expectDigit, expectCh, expectP, ha, hbc]
          have hd : matchDate ([a, b, c3] ++ '%' :: t) = none := by
            simp [matchDate, pseq, expectDigit, expectP, ha, hb, hc3, hpc]
          simp only [List.cons_append, List.nil_append] at h2 h1 hd ⊢
          simp [matchTimeDate, h2, h1, hd, Option.orElse]
        | cons d4 r4 =>
          have hd4 : isDigitCh d4 = true := hrun d4 (by simp)
          have h2 : matchTime2 ((a :: b :: c3 :: d4 :: r4) ++ '%' :: t) = none := by
            simp [matchTime2, pseq, expectDigit, expectCh, expectP, ha, hb, hc3c]
          have h1 : matchTime1 ((a :: b :: c3 :: d4 :: r4) ++ '%' :: t) = none := by
            simp [matchTime1, pseq, expectDigit, expectCh, expectP, ha, hbc]
          have hd : matchDate ((a :: b :: c3 :: d4 :: r4) ++ '%' :: t) = none := by
            cases r4 with
            | nil =>
              simp [matchDate, pseq, expectDigit, expectCh, expectP, ha, hb, hc3,
                hd4, hpdash]
            | cons e r5 =>
              have he : isDigitCh e = true := hrun e (by simp)
              have hed : e ≠ '-' := by
                intro hh
                rw [hh] at he
                exact absurd he (by decide)
              simp [matchDate, pseq, expectDigit, expectCh, expectP, ha, hb, hc3,
                hd4, hed]
          simp only [List.cons_append, List.nil_append] at h2 h1 hd ⊢
          simp [matchTimeDate, h2, h1, hd, Option.orElse]

/-- The time-and-date pass copies a percent slot (digit run plus percent sign)
and continues scanning after it, whatever the tail: no alternation branch that
starts inside the run survives past the percent sign. -/
theorem scanTimeDate_skip_percentrun :
    ∀ (run : List Char), (∀ c ∈ run, isDigitCh c = true) →
    ∀ t : List Char,
    scanStrip matchTimeDate (run ++ '%' :: t) = run ++ '%' :: scanStrip matchTimeDate t := by
  intro run
  induction run with
  | nil =>
    intro _ t
    have hp : isDigitCh '%' = false := by decide
    rw [List.nil_append, scanStrip_cons_none (matchTimeDate_none_head t hp), List.nil_append]
  | cons a run' ih =>
    intro hrun t
    have hnone : matchTimeDate ((a :: run') ++ '%' :: t) = none :=
      matchTimeDate_none_digitrun (a :: run') (by simp) hrun t
    simp only [List.cons_append] at hnone ⊢
    rw [scanStrip_cons_none hnone,
      ih (fun c hc => hrun c (List.mem_cons_of_mem a hc)) t]

/-- A plain-context character is not a digit. -/
theorem plain_digit {c : Char} (h : isPlainCtx c = true) : isDigitCh c = false := by
  simp only [isPlainCtx, Bool.and_eq_true] at h
  rcases h with ⟨h1, _⟩
  cases hv : isDigitCh c
  · rfl
  · rw [hv] at h1; exact absurd h1 (by simp)

/-- A plain-context character is not the escape character. -/
theorem plain_esc {c : Char} (h : isPlainCtx c = true) :
    (c == Char.ofNat 27) = false := by
  simp only [isPlainCtx, Bool.and_eq_true] at h
  exact ne27_beq_esc_false h.2

/-- Digits and the three punctuation marks of the patterns are not escapes. -/
theorem esc_false_of_member {c : Char}
    (h : isDigitCh c = true ∨ c = ':' ∨ c = '-' ∨ c = '%') :
    (c == Char.ofNat 27) = false := by
  rcases h with h | h | h | h
  · exact digit_beq_false h (by decide)
  · subst h; decide
  · subst h; decide
  · subst h; decide

/-- Characters of a two-digit-hour time slot. -/
theorem time2_members {u : List Char} (hu : isTime2Slot u = true) :
    ∀ c ∈ u, isDigitCh c = true ∨ c = ':' := by
  unfold isTime2Slot at hu
  split at hu
  · next d1 d2 c1 d3 d4 c2 d5 d6 =>
    simp only [Bool.and_eq_true] at hu
    obtain ⟨⟨⟨⟨⟨⟨⟨hd1, hd2⟩, hc1⟩, hd3⟩, hd4⟩, hc2⟩, hd5⟩, hd6⟩ := hu
    intro c hc
    simp only [List.mem_cons, List.not_mem_nil, or_false] at hc
    rcases hc with rfl | rfl | rfl | rfl | rfl | rfl | rfl | rfl
    · exact Or.inl hd1
    · exact Or.inl hd2
    · exact Or.inr (eq_of_beq hc1)
    · exact Or.inl hd3
    · exact Or.inl hd4
    · exact Or.inr (eq_of_beq hc2)
    · exact Or.inl hd5
    · exact Or.inl hd6
  · next => exact absurd hu (by simp)

/-- Characters of a one-digit-hour time slot. -/
theorem time1_members {u : List Char} (hu : isTime1Slot u = true) :
    ∀ c ∈ u, isDigitCh c = true ∨ c = ':' := by
  unfold isTime1Slot at hu
  split at hu
  · next d1 c1 d2 d3 c2 d4 d5 =>
    simp only [Bool.and_eq_true] at hu
    obtain ⟨⟨⟨⟨⟨⟨hd1, hc1⟩, hd2⟩, hd3⟩, hc2⟩, hd4⟩, hd5⟩ := hu
    intro c hc
    simp only [List.mem_cons, List.not_mem_nil, or_false] at hc
    rcases hc with rfl | rfl | rfl | rfl | rfl | rfl | rfl
    · exact Or.inl hd1
    · exact Or.inr (eq_of_beq hc1)
    · exact Or.inl hd2
    · exact Or.inl hd3
    · exact Or.inr (eq_of_beq hc2)
    · exact Or.inl hd4
    · exact Or.inl hd5
  · next => exact absurd hu (by simp)

/-- Characters of a date slot. -/
theorem date_members {u : List Char} (hu : isDateSlot u = true) :
    ∀ c ∈ u, isDigitCh c = true ∨ c = '-' := by
  unfold isDateSlot at hu
  split at hu
  · next d1 d2 d3 d4 c1 d5 d6 c2 d7 d8 =>
    simp only [Bool.and_eq_true] at hu
    obtain ⟨⟨⟨⟨⟨⟨⟨⟨⟨hd1, hd2⟩, hd3⟩, hd4⟩, hc1⟩, hd5⟩, hd6⟩, hc2⟩, hd7⟩, hd8⟩ := hu
    intro c hc
    simp only [List.mem_cons, List.not_mem_nil, or_false] at hc
    rcases hc with rfl | rfl | rfl | rfl | rfl | rfl | rfl | rfl | rfl | rfl
    · exact Or.inl hd1
    · exact Or.inl hd2
    · exact Or.inl hd3
    · exact Or.inl hd4
    · exact Or.inr (eq_of_beq hc1)
    · exact Or.inl hd5
    · exact Or.inl hd6
    · exact Or.inr (eq_of_beq hc2)
    · exact Or.inl hd7
    · exact Or.inl hd8
  · next => exact absurd hu (by simp)

/-- Characters of a percent slot. -/
theorem percent_members {u : List Char} (hu : isPercentSlot u = true) :
    ∀ c ∈ u, isDigitCh c = true ∨ c = '%' := by
  simp only [isPercentSlot, Bool.and_eq_true] at hu
  obtain ⟨_, hdrop⟩ := hu
  have hdrop' : u.dropWhile isDigitCh = ['%'] := eq_of_beq hdrop
  intro c hc
  rw [← List.takeWhile_append_dropWhile (p := isDigitCh) (l := u)] at hc
  rcases List.mem_append.mp hc with h1 | h1
  · exact Or.inl (takeWhile_mem_p isDigitCh u c h1)
  · rw [hdrop'] at h1
    simp only [List.mem_singleton] at h1
    exact Or.inr h1

/-- A removable slot that is not an ANSI escape contains no escape character. -/
theorem removable_not_ansi_esc {u : List Char} (hu : isRemovableSlot u = true)
    (hna : isAnsiSlot u = false) : ∀ c ∈ u, (c == Char.ofNat 27) = false := by
  simp only [isRemovableSlot, Bool.or_eq_true] at hu
  rcases hu with ((h | h) | h) | h
  · rw [hna] at h
    exact absurd h (by simp)
  · intro c hc
    refine esc_false_of_member ?_
    have hmem : ∀ c ∈ u, isDigitCh c = true ∨ c = ':' := by
      simp only [isTimeSlot, Bool.or_eq_true] at h
      rcases h with h | h
      · exact time2_members h
      · exact time1_members h
    rcases hmem c hc with h1 | h1
    · exact Or.inl h1
    · exact Or.inr (Or.inl h1)
  · intro c hc
    refine esc_false_of_member ?_
    rcases date_members h c hc with h1 | h1
    · exact Or.inl h1
    · exact Or.inr (Or.inr (Or.inl h1))
  · intro c hc
    refine esc_false_of_member ?_
    rcases percent_members h c hc with h1 | h1
    · exact Or.inl h1
    · exact Or.inr (Or.inr (Or.inr h1))

/-- The ANSI pass over an interleaving of escape-free literals and removable
slots deletes exactly the ANSI slots. -/
theorem scanAnsi_fill : ∀ (segs : List (List Char × List Char)) (z : List Char),
    (∀ s ∈ segs, ∀ c ∈ s.1, (c == Char.ofNat 27) = false) →
    (∀ s ∈ segs, isRemovableSlot s.2 = true) →
    (∀ c ∈ z, (c == Char.ofNat 27) = false) →
    scanStrip matchAnsi (fillSlots segs z) =
      fillSlots (segs.map fun s => (s.1, if isAnsiSlot s.2 then [] else s.2)) z := by
  intro segs
  induction segs with
  | nil =>
    intro z _ _ hz
    exact scanStrip_id (fun c cs h => matchAnsi_none_head cs h) z hz
  | cons s rest ih =>
    intro z hlit hslot hz
    obtain ⟨a, u⟩ := s
    have haE : ∀ c ∈ a, (c == Char.ofNat 27) = false := hlit (a, u) (by simp)
    have huR : isRemovableSlot u = true := hslot (a, u) (by simp)
    have hlit' : ∀ s ∈ rest, ∀ c ∈ s.1, (c == Char.ofNat 27) = false :=
      fun s hs => hlit s (List.mem_cons_of_mem _ hs)
    have hslot' : ∀ s ∈ rest, isRemovableSlot s.2 = true :=
      fun s hs => hslot s (List.mem_cons_of_mem _ hs)
    simp only [fillSlots, List.map_cons]
    rw [scanStrip_skip (fun c cs h => matchAnsi_none_head cs h) a _ haE]
    by_cases hansi : isAnsiSlot u = true
    · have hne : u ++ fillSlots rest z ≠ [] := by
        intro hh
        rcases List.append_eq_nil.mp hh with ⟨h1, _⟩
        subst h1
        exact absurd hansi (by decide)
      rw [scanStrip_head_match matchAnsi_consumes hne (matchAnsi_slot _ hansi),
        ih z hlit' hslot' hz]
      simp [hansi]
    · have hansif : isAnsiSlot u = false := by
        cases hv : isAnsiSlot u
        · rfl
        · exact absurd hv hansi
      have huE : ∀ c ∈ u, (c == Char.ofNat 27) = false :=
        removable_not_ansi_esc huR hansif
      rw [scanStrip_skip (fun c cs h => matchAnsi_none_head cs h) u _ huE,
        ih z hlit' hslot' hz]
      simp [hansif]

/-- The time-and-date pass over an interleaving of digit-free literals and
post-ANSI slots deletes exactly the time and date slots. -/
theorem scanTimeDate_fill : ∀ (segs : List (List Char × List Char)) (z : List Char),
    (∀ s ∈ segs, ∀ c ∈ s.1, isDigitCh c = false) →
    (∀ s ∈ segs, s.2 = [] ∨ isTimeSlot s.2 = true ∨ isDateSlot s.2 = true ∨
      isPercentSlot s.2 = true) →
    (∀ c ∈ z, isDigitCh c = false) →
    scanStrip matchTimeDate (fillSlots segs z) =
      fillSlots (segs.map fun s =>
        (s.1, if isTimeSlot s.2 || isDateSlot s.2 then [] else s.2)) z := by
  intro segs
  induction segs with
  | nil =>
    intro z _ _ hz
    exact scanStrip_id (fun c cs h => matchTimeDate_none_head cs h) z hz
  | cons s rest ih =>
    intro z hlit hslot hz
    obtain ⟨a, u⟩ := s
    have haD : ∀ c ∈ a, isDigitCh c = false := hlit (a, u) (by simp)
    have hu : u = [] ∨ isTimeSlot u = true ∨ isDateSlot u = true ∨
        isPercentSlot u = true := hslot (a, u) (by simp)
    have hlit' : ∀ s ∈ rest, ∀ c ∈ s.1, isDigitCh c = false :=
      fun s hs => hlit s (List.mem_cons_of_mem _ hs)
    have hslot' : ∀ s ∈ rest, s.2 = [] ∨ isTimeSlot s.2 = true ∨ isDateSlot s.2 = true ∨
        isPercentSlot s.2 = true :=
      fun s hs => hslot s (List.mem_cons_of_mem _ hs)
    simp only [fillSlots, List.map_cons]
    rw [scanStrip_skip (fun c cs h => matchTimeDate_none_head cs h) a _ haD]
    by_cases htd : (isTimeSlot u || isDateSlot u) = true
    · have hne : u ++ fillSlots rest z ≠ [] := by
        intro hh
        rcases List.append_eq_nil.mp hh with ⟨h1, _⟩
        subst h1
        exact absurd htd (by decide)
      have htd' : isTimeSlot u = true ∨ isDateSlot u = true := by
        have h := htd
        simp only [Bool.or_eq_true] at h
        exact h
      have hmatch : matchTimeDate (u ++ fillSlots rest z) = some (fillSlots rest z) := by
        rcases htd' with h | h
        · simp only [isTimeSlot, Bool.or_eq_true] at h
          rcases h with h | h
          · exact matchTimeDate_slot_time2 _ h
          · exact matchTimeDate_slot_time1 _ h
        · exact matchTimeDate_slot_date _ h
      rw [scanStrip_head_match matchTimeDate_consumes hne hmatch, ih z hlit' hslot' hz]
      simp [htd]
    · have htdf : (isTimeSlot u || isDateSlot u) = false := by
        cases hv : isTimeSlot u || isDateSlot u
        · rfl
        · exact absurd hv htd
      rcases hu with hnil | ht | hd | hp
      · subst hnil
        rw [List.nil_append, ih z hlit' hslot' hz]
        simp [htdf]
      · rw [ht] at htdf
        simp at htdf
      · rw [hd] at htdf
        simp at htdf
      · have hdrop' : u.dropWhile isDigitCh = ['%'] := by
          have := hp
          simp only [isPercentSlot, Bool.and_eq_true] at this
          exact eq_of_beq this.2
        have hu2 : u = u.takeWhile isDigitCh ++ ['%'] := by
          conv_lhs => rw [← List.takeWhile_append_dropWhile (p := isDigitCh) (l := u)]
          rw [hdrop']
        have hub : u ++ fillSlots rest z =
            u.takeWhile isDigitCh ++ '%' :: fillSlots rest z := by
          conv_lhs => rw [hu2]
          simp
        rw [hub, scanTimeDate_skip_percentrun (u.takeWhile isDigitCh)
          (fun c hc => takeWhile_mem_p isDigitCh u c hc) (fillSlots rest z),
          ih z hlit' hslot' hz]
        simp only [htdf, Bool.false_eq_true, if_false]
        conv_rhs => rw [hu2]
        simp

/-- The percent pass over an interleaving of digit-free literals and percent
slots deletes the slots, leaving exactly the literals. -/
theorem scanPercent_fill : ∀ (segs : List (List Char × List Char)) (z : List Char),
    (∀ s ∈ segs, ∀ c ∈ s.1, isDigitCh c = false) →
    (∀ s ∈ segs, s.2 = [] ∨ isPercentSlot s.2 = true) →
    (∀ c ∈ z, isDigitCh c = false) →
    scanStrip matchPercent (fillSlots segs z) = plainSegs segs z := by
  intro segs
  induction segs with
  | nil =>
    intro z _ _ hz
    exact scanStrip_id (fun c cs h => matchPercent_none_head cs h) z hz
  | cons s rest ih =>
    intro z hlit hslot hz
    obtain ⟨a, u⟩ := s
    have haD : ∀ c ∈ a, isDigitCh c = false := hlit (a, u) (by simp)
    have hu : u = [] ∨ isPercentSlot u = true := hslot (a, u) (by simp)
    have hlit' : ∀ s ∈ rest, ∀ c ∈ s.1, isDigitCh c = false :=
      fun s hs => hlit s (List.mem_cons_of_mem _ hs)
    have hslot' : ∀ s ∈ rest, s.2 = [] ∨ isPercentSlot s.2 = true :=
      fun s hs => hslot s (List.mem_cons_of_mem _ hs)
    simp only [fillSlots, plainSegs]
    rw [scanStrip_skip (fun c cs h => matchPercent_none_head cs h) a _ haD]
    rcases hu with hnil | hp
    · subst hnil
      rw [List.nil_append, ih z hlit' hslot' hz]
    · have hne : u ++ fillSlots rest z ≠ [] := by
        intro hh
        rcases List.append_eq_nil.mp hh with ⟨h1, _⟩
        subst h1
        simp [isPercentSlot] at hp
      rw [scanStrip_head_match matchPercent_consumes hne (matchPercent_slot _ hp),
        ih z hlit' hslot' hz]

/-- `plainSegs` only reads the literal components. -/
theorem plainSegs_map_fst (f : List Char × List Char → List Char × List Char)
    (hf : ∀ s, (f s).1 = s.1) :
    ∀ (segs : List (List Char × List Char)) (z : List Char),
    plainSegs (segs.map f) z = plainSegs segs z := by
  intro segs
  induction segs with
  | nil => intro z; rfl
  | cons s rest ih =>
    intro z
    obtain ⟨a, u⟩ := s
    rcases hfa : f (a, u) with ⟨b, v⟩
    have hb : b = a := by
      have := hf (a, u)
      rw [hfa] at this
      exact this
    subst hb
    simp only [List.map_cons, hfa, plainSegs, ih z]

/-- `plainSegs` over two slot choices for the same literals agree. -/
theorem plainSegs_map_pair :
    ∀ (segs : List (List Char × List Char × List Char)) (z : List Char)
    (g k : List Char × List Char × List Char → List Char),
    plainSegs (segs.map fun s => (s.1, g s)) z =
      plainSegs (segs.map fun s => (s.1, k s)) z := by
  intro segs
  induction segs with
  | nil => intro z g k; rfl
  | cons s rest ih =>
    intro z g k
    simp only [List.map_cons, plainSegs]
    rw [ih z g k]

/-- The three normalization passes delete every removable slot of an
interleaving exactly, leaving the digit-free, escape-free literals. -/
theorem normalize_removes_slots (segs : List (List Char × List Char)) (z : List Char)
    (hlit : ∀ s ∈ segs, ∀ c ∈ s.1, isPlainCtx c = true)
    (hz : ∀ c ∈ z, isPlainCtx c = true)
    (hslot : ∀ s ∈ segs, isRemovableSlot s.2 = true) :
    scanStrip matchPercent (scanStrip matchTimeDate (scanStrip matchAnsi
      (fillSlots segs z))) = plainSegs segs z := by
  have hzE : ∀ c ∈ z, (c == Char.ofNat 27) = false := fun c hc => plain_esc (hz c hc)
  have hzD : ∀ c ∈ z, isDigitCh c = false := fun c hc => plain_digit (hz c hc)
  rw [scanAnsi_fill segs z (fun s hs c hc => plain_esc (hlit s hs c hc)) hslot hzE]
  set segs1 := segs.map fun s => (s.1, if isAnsiSlot s.2 then [] else s.2) with hsegs1
  have hlit1 : ∀ s ∈ segs1, ∀ c ∈ s.1, isDigitCh c = false := by
    intro s hs c hc
    rw [hsegs1] at hs
    rcases List.mem_map.mp hs with ⟨t, ht, rfl⟩
    exact plain_digit (hlit t ht c hc)
  have hslot1 : ∀ s ∈ segs1, s.2 = [] ∨ isTimeSlot s.2 = true ∨ isDateSlot s.2 = true ∨
      isPercentSlot s.2 = true := by
    intro s hs
    rw [hsegs1] at hs
    rcases List.mem_map.mp hs with ⟨t, ht, rfl⟩
    by_cases ha : isAnsiSlot t.2 = true
    · left
      simp [ha]
    · have haf : isAnsiSlot t.2 = false := by
        cases hv : isAnsiSlot t.2
        · rfl
        · exact absurd hv ha
      have hrem := hslot t ht
      simp only [isRemovableSlot, Bool.or_eq_true] at hrem
      rcases hrem with ((h | h) | h) | h
      · rw [haf] at h
        exact absurd h (by simp)
      · right; left
        simpa [haf] using h
      · right; right; left
        simpa [haf] using h
      · right; right; right
        simpa [haf] using h
  rw [scanTimeDate_fill segs1 z hlit1 hslot1 hzD]
  set segs2 := segs1.map fun s => (s.1, if isTimeSlot s.2 || isDateSlot s.2 then [] else s.2)
    with hsegs2
  have hlit2 : ∀ s ∈ segs2, ∀ c ∈ s.1, isDigitCh c = false := by
    intro s hs c hc
    rw [hsegs2] at hs
    rcases List.mem_map.mp hs with ⟨t, ht, rfl⟩
    exact hlit1 t ht c hc
  have hslot2 : ∀ s ∈ segs2, s.2 = [] ∨ isPercentSlot s.2 = true := by
    intro s hs
    rw [hsegs2] at hs
    rcases List.mem_map.mp hs with ⟨t, ht, rfl⟩
    by_cases htd : (isTimeSlot t.2 || isDateSlot t.2) = true
    · left
      simp [htd]
    · have htdf : (isTimeSlot t.2 || isDateSlot t.2) = false := by
        cases hv : isTimeSlot t.2 || isDateSlot t.2
        · rfl
        · exact absurd hv htd
      rcases hslot1 t ht with hnil | ht1 | hd1 | hp1
      · left
        simp [htdf, hnil]
      · rw [ht1] at htdf
        simp at htdf
      · rw [hd1] at htdf
        simp at htdf
      · right
        simpa [htdf] using hp1
  rw [scanPercent_fill segs2 z hlit2 hslot2 hzD, hsegs2,
    plainSegs_map_fst (fun s => (s.1, if isTimeSlot s.2 || isDateSlot s.2 then [] else s.2))
      (fun s => rfl) segs1 z,
    hsegs1,
    plainSegs_map_fst (fun s => (s.1, if isAnsiSlot s.2 then [] else s.2))
      (fun s => rfl) segs z]

/-- C8 (amended): two raw captures that differ only in removable substrings —
any number of ANSI escapes, `HH:MM:SS` times, `YYYY-MM-DD` dates, or `\d+%`
percentages, each varying independently between the two captures — normalize
to equal strings, and hence hash equal, provided the shared context segments
around the varying substrings contain no digit and no escape character, so
that no varying substring can merge with its neighbours into a different
match.  (Without that proviso the property fails; see the counterexample.) -/
theorem normalizeContent_congr (segs : List (List Char × List Char × List Char))
    (z : List Char)
    (hlit : ∀ s ∈ segs, ∀ c ∈ s.1, isPlainCtx c = true)
    (hz : ∀ c ∈ z, isPlainCtx c = true)
    (hu : ∀ s ∈ segs, isRemovableSlot s.2.1 = true)
    (hv : ∀ s ∈ segs, isRemovableSlot s.2.2 = true) :
    normalizeContent (String.mk (fillSlots (segs.map fun s => (s.1, s.2.1)) z)) =
      normalizeContent (String.mk (fillSlots (segs.map fun s => (s.1, s.2.2)) z)) ∧
    hashContent (normalizeContent
        (String.mk (fillSlots (segs.map fun s => (s.1, s.2.1)) z))) =
      hashContent (normalizeContent
        (String.mk (fillSlots (segs.map fun s => (s.1, s.2.2)) z))) := by
  have key : ∀ g : List Char × List Char × List Char → List Char,
      (∀ s ∈ segs, isRemovableSlot (g s) = true) →
      normalizeContent (String.mk (fillSlots (segs.map fun s => (s.1, g s)) z)) =
        String.mk (trimSpaceCL (plainSegs (segs.map fun s => (s.1, g s)) z)) := by
    intro g hg
    have hl : ∀ s ∈ segs.map fun s => (s.1, g s), ∀ c ∈ s.1, isPlainCtx c = true := by
      intro s hs c hc
      rcases List.mem_map.mp hs with ⟨t, ht, rfl⟩
      exact hlit t ht c hc
    have hr : ∀ s ∈ segs.map fun s => (s.1, g s), isRemovableSlot s.2 = true := by
      intro s hs
      rcases List.mem_map.mp hs with ⟨t, ht, rfl⟩
      exact hg t ht
    have hlist : (String.mk (fillSlots (segs.map fun s => (s.1, g s)) z)).toList =
        fillSlots (segs.map fun s => (s.1, g s)) z := rfl
    simp only [normalizeContent, hlist]
    rw [normalize_removes_slots _ z hl hz hr]
  have h1 := key (fun s => s.2.1) hu
  have h2 := key (fun s => s.2.2) hv
  have hplain : plainSegs (segs.map fun s => (s.1, s.2.1)) z =
      plainSegs (segs.map fun s => (s.1, s.2.2)) z :=
    plainSegs_map_pair segs z _ _
  constructor
  · rw [h1, h2, hplain]
  · rw [h1, h2, hplain]

/-- Witness for C8 with two varying substrings of different categories: a time
and a percentage change together inside digit-free context, and the
normalization (and its hash) is unchanged. -/
theorem normalizeContent_congr_witness :
    normalizeContent (String.mk (fillSlots
      [("Load ".toList, "12:34:56".toList), (" at ".toList, "28%".toList)]
      " done".toList)) =
      normalizeContent (String.mk (fillSlots
        [("Load ".toList, "1:02:03".toList), (" at ".toList, "100%".toList)]
        " done".toList)) ∧
    hashContent (normalizeContent (String.mk (fillSlots
      [("Load ".toList, "12:34:56".toList), (" at ".toList, "28%".toList)]
      " done".toList))) =
      hashContent (normalizeContent (String.mk (fillSlots
        [("Load ".toList, "1:02:03".toList), (" at ".toList, "100%".toList)]
        " done".toList))) := by
  have h := normalizeContent_congr
    [("Load ".toList, "12:34:56".toList, "1:02:03".toList),
     (" at ".toList, "28%".toList, "100%".toList)]
    " done".toList (by decide) (by decide) (by decide) (by decide)
  simpa using h

/-- Counterexample for C8 as frozen: `"51:23:45"` and `"512:34:56"` differ
only in an `HH:MM:SS` substring after the shared prefix `"5"`, yet they
normalize (and hash) differently, because the digit next to the slot merges
into the time match on one side only. -/
theorem normalizeContent_cx :
    ("51:23:45" = String.mk ("5".toList ++ ("1:23:45".toList ++ [])) ∧
     "512:34:56" = String.mk ("5".toList ++ ("12:34:56".toList ++ [])) ∧
     isTimeSlot "1:23:45".toList = true ∧
     isTimeSlot "12:34:56".toList = true) ∧
    normalizeContent "51:23:45" ≠ normalizeContent "512:34:56" ∧
    hashContent (normalizeContent "51:23:45") ≠
      hashContent (normalizeContent "512:34:56") := by
  refine ⟨⟨by decide, by decide, by decide, by decide⟩, by decide, by decide⟩
